import Mathlib

/-!
Shallow embedding of the `mmcif-gen` investigation pipeline
(`investigation_io.py`, `investigation_engine.py`,
`mmcif_gen/facilities/pdbe.py`) and proofs about it.

Python dictionaries are modelled as association lists in insertion order
(Python 3.7+ dicts preserve insertion order); Python `None`/exceptions are
modelled with `Option`/`Except`.
-/

namespace MmcifGen

/-- Association-list lookup: first binding wins (Python dict lookup when the
key list is duplicate-free, which all embedded dict states maintain). -/
def alookup {α : Type} : List (String × α) → String → Option α
  | [], _ => none
  | (k, v) :: rest, q => if k = q then some v else alookup rest q

/-- Python `str.strip(chars)`: drop characters in `cs` from both ends. -/
def pyStrip (cs : List Char) (s : String) : String :=
  String.mk (((s.toList.dropWhile (cs.contains ·)).reverse.dropWhile
      (cs.contains ·)).reverse)

/-- Python `str.rstrip(chars)`: drop characters in `cs` from the right end. -/
def pyRStrip (cs : List Char) (s : String) : String :=
  String.mk ((s.toList.reverse.dropWhile (cs.contains ·)).reverse)

/-- The sequence trimming applied when a denormalised row is materialised:
`seq_one_letter_code.strip(";").rstrip('\n')` (investigation_io.py:176). -/
def trimSeq (s : String) : String :=
  pyRStrip ['\n'] (pyStrip [';'] s)

/-- Description trimming: `.strip("'").strip(";").strip("\n")`
(investigation_io.py:117). -/
def trimDescription (s : String) : String :=
  pyStrip ['\n'] (pyStrip [';'] (pyStrip ['\''] s))

/-! ## Output Store (`InvestigationStorage`, investigation_io.py:538-611)

`data` is category name → (item name → value list); `mmcif_order` is the
per-category declared item order loaded from the operation JSON. -/

/-- The items of one category: item name → ordered value sequence. -/
abbrev Items := List (String × List String)

structure InvestigationStorage where
  data : List (String × Items)
  mmcif_order : List (String × List String)
deriving Repr, DecidableEq

/-- `add_category` (investigation_io.py:543-545): insert an empty category
if absent. -/
def add_category (d : List (String × Items)) (c : String) : List (String × Items) :=
  if (d.map Prod.fst).contains c then d else d ++ [(c, [])]

/-- Python dict assignment `m[k] = v`: replace in place if present, else
append. -/
def dictSet {α : Type} (m : List (String × α)) (k : String) (v : α) :
    List (String × α) :=
  if (m.map Prod.fst).contains k then
    m.map (fun p => if p.1 = k then (p.1, v) else p)
  else m ++ [(k, v)]

/-- Apply `f` to the items of category `c` (Python mutates
`self.data[category_name]` in place). -/
def updateCat (d : List (String × Items)) (c : String) (f : Items → Items) :
    List (String × Items) :=
  d.map (fun p => if p.1 = c then (p.1, f p.2) else p)

/-- `set_item` (investigation_io.py:547-550): ensure the category exists,
then *assign* `self.data[category_name][item_name] = item_value`
(plain dict assignment - it replaces any existing value). -/
def set_item (s : InvestigationStorage) (c i : String) (v : List String) :
    InvestigationStorage :=
  { s with data := updateCat (add_category s.data c) c (fun its => dictSet its i v) }

/-- One item update of `set_items`: ensure the item exists (initialised to
`[]`), then append each value (`self.data[category_name][item].append(value)`). -/
def setItemsOne (its : Items) (i : String) (vs : List String) : Items :=
  (if (its.map Prod.fst).contains i then its else its ++ [(i, [])]).map
    (fun p => if p.1 = i then (p.1, p.2 ++ vs) else p)

/-- `set_items` (investigation_io.py:564-571): ensure the category exists,
then for each `(item, values)` pair append the values to the item. -/
def set_items (s : InvestigationStorage) (c : String)
    (kvs : List (String × List String)) : InvestigationStorage :=
  { s with data := (updateCat (add_category s.data c)
      c (fun its => kvs.foldl (fun acc kv => setItemsOne acc kv.1 kv.2) its)) }

/-- `get_item_data` (investigation_io.py:555-556); `none` models the
`KeyError` Python raises when the category or item is absent. -/
def get_item_data (s : InvestigationStorage) (c i : String) :
    Option (List String) :=
  (alookup s.data c).bind (fun its => alookup its i)

/-! ## `integrity_check` (investigation_io.py:596-611)

The Python method computes, per category, the items whose length differs
from the maximal item length, prints the offending `(category, item,
length)` triples, and falls off the end of the body - its *return value* is
`None`.  `max()` over an empty category raises `ValueError`. -/

/-- Python `max(list)`: `none` models the `ValueError` on an empty list. -/
def pyMax : List Nat → Option Nat
  | [] => none
  | x :: xs => some (xs.foldl Nat.max x)

/-- One category's mismatch report: the printed `(category, item, length)`
triples grouped by category. -/
abbrev MismatchReport := List (String × List (String × Nat))

/-- The per-category loop of `integrity_check`: collect, for each category,
the items whose value-list length is not the maximal one; a category with
no items makes `max()` raise (`.error ()`). -/
def integrityMismatches :
    List (String × Items) → Except Unit MismatchReport
  | [] => .ok []
  | (c, items) :: rest =>
    match pyMax (items.map (fun i => i.2.length)) with
    | none => .error ()
    | some m =>
      let bad := (items.filter (fun i => i.2.length ≠ m)).map
        (fun i => (i.1, i.2.length))
      match integrityMismatches rest with
      | .error e => .error e
      | .ok r => .ok (if bad.isEmpty then r else (c, bad) :: r)

/-- `integrity_check`: on success returns the triple
(printed mismatch report, Python return value, state of the store after the
call).  The method body has no `return` statement, so the second component
is always `none` (Python `None`); the body only reads `self.data`, so the
third component is the unchanged store. -/
def integrity_check (s : InvestigationStorage) :
    Except Unit (MismatchReport × Option MismatchReport × InvestigationStorage) :=
  match integrityMismatches s.data with
  | .error e => .error e
  | .ok rep => .ok (rep, none, s)

/-! ## `write_data_to_cif` (investigation_io.py:579-594)

For each category the declared-order items are moved first via
`items.pop(ordered_item)` - which *mutates* `self.data[category]` and
raises `KeyError` when the name is absent - and the remaining items follow
in insertion order (`ordered_category.update(items)`). -/

/-- `get_item_order` (investigation_io.py:576-577). -/
def get_item_order (s : InvestigationStorage) (c : String) : List String :=
  (alookup s.mmcif_order c).getD []

/-- Python `dict.pop(k)` on an association list: `none` models `KeyError`. -/
def popItem : Items → String → Option (List String × Items)
  | [], _ => none
  | (k, v) :: rest, q =>
    if k = q then some (v, rest)
    else (popItem rest q).map (fun r => (r.1, (k, v) :: r.2))

/-- The `for ordered_item in ordered_items: ordered_category[ordered_item]
= items.pop(ordered_item)` loop: returns the ordered prefix and the items
left in the category, or `none` on the first `KeyError`. -/
def buildOrderedCat (order : List String) (items : Items) :
    Option (Items × Items) :=
  match order with
  | [] => some ([], items)
  | o :: os =>
    (popItem items o).bind (fun r =>
      (buildOrderedCat os r.2).map (fun q => ((o, r.1) :: q.1, q.2)))

/-- The per-category serialization loop: produce the emitted document
(category → ordered items ++ remaining items) and the post-call store data
(each category keeps only the items not popped). -/
def writeCats (ord : String → List String) :
    List (String × Items) → Option (List (String × Items) × List (String × Items))
  | [] => some ([], [])
  | (c, items) :: rest =>
    (buildOrderedCat (ord c) items).bind (fun r =>
      (writeCats ord rest).map (fun q =>
        ((c, r.1 ++ r.2) :: q.1, (c, r.2) :: q.2)))

/-- `write_data_to_cif`: on success returns the document handed to the
writer together with the store after the destructive pops; `.error ()`
models the uncaught `KeyError` (no output file is produced).  (On the error
path Python leaves the store partially mutated; the claims under proof only
concern the success-path store and the fact that no document is written.) -/
def write_data_to_cif (s : InvestigationStorage) :
    Except Unit (List (String × Items) × InvestigationStorage) :=
  match writeCats (get_item_order s) s.data with
  | none => .error ()
  | some r => .ok (r.1, { s with data := r.2 })

/-! ## Operation Engine (`investigation_engine.py`)

`InvestigationEngine.run` iterates the descriptor list; for each
descriptor the `try` block resolves the kind via `operation_factory` and
calls `perform_operation`; `except Exception` logs the full descriptor
payload (`json.dumps(operation_data)`) and continues.  After the loop
`write_data_to_cif` is always invoked.

The concrete operation classes live in `operations.py` (their behaviour is
irrelevant to the engine claims), so an operation's effect is a parameter
`perform : String → Descriptor → InvestigationStorage →
InvestigationStorage × Bool`: given the resolved kind, the descriptor and
the store it returns the (possibly partially mutated) store and whether it
raised. -/

/-- An operation descriptor: `operation` models
`operation_data.get("operation", "")` (`none` = key absent), `payload`
stands for the rest of the JSON object, logged on failure. -/
structure Descriptor where
  operation : Option String
  payload : String
deriving Repr, DecidableEq

/-- `operation_factory` (investigation_engine.py:58-94): the kind string is
resolved through the `if`/`elif` chain; the final `else` raises
`ValueError(f"Invalid operation type: ...")`.  The resolved operation
object is represented by its kind string (its behaviour enters through the
`perform` parameter). -/
def operation_factory (t : String) : Except String String :=
  if t = "distinct_union" then .ok t
  else if t = "intersection" then .ok t
  else if t = "auto_increment" then .ok t
  else if t = "static_value" then .ok t
  else if t = "modify_intersection" then .ok t
  else if t = "conditional_union" then .ok t
  else if t = "copy" then .ok t
  else if t = "copy_fill" then .ok t
  else if t = "copy_conditional_modify" then .ok t
  else if t = "copy_for_each_row" then .ok t
  else if t = "external_information" then .ok t
  else if t = "deletion" then .ok t
  else if t = "conditional_distinct_union" then .ok t
  else if t = "sql_query" then .ok t
  else if t = "noop" then .ok t
  else .error ("Invalid operation type: " ++ t)

/-- The fifteen kind strings the factory chain accepts. -/
def knownOperationTypes : List String :=
  ["distinct_union", "intersection", "auto_increment", "static_value",
   "modify_intersection", "conditional_union", "copy", "copy_fill",
   "copy_conditional_modify", "copy_for_each_row", "external_information",
   "deletion", "conditional_distinct_union", "sql_query", "noop"]

/-- The body of one iteration of `run`'s loop: resolve the kind and perform
the operation inside `try`; on either failure the descriptor is logged
(second component) and the loop continues.  When `operation_factory`
raises, `perform_operation` was never called, so the store is unchanged;
when `perform` raises, the store keeps whatever mutations `perform` made
before raising. -/
def runStep (perform : String → Descriptor → InvestigationStorage →
    InvestigationStorage × Bool) (s : InvestigationStorage) (d : Descriptor) :
    InvestigationStorage × Option Descriptor :=
  match operation_factory (d.operation.getD "") with
  | .error _ => (s, some d)
  | .ok k =>
    if (perform k d s).2 then ((perform k d s).1, some d)
    else ((perform k d s).1, none)

/-- The descriptor loop of `run` (investigation_engine.py:97-104),
accumulating the log of failed-descriptor payloads. -/
def runLoop (perform : String → Descriptor → InvestigationStorage →
    InvestigationStorage × Bool) (ops : List Descriptor)
    (s : InvestigationStorage) : InvestigationStorage × List Descriptor :=
  ops.foldl (fun acc d =>
    ((runStep perform acc.1 d).1, acc.2 ++ (runStep perform acc.1 d).2.toList))
    (s, [])

/-- `InvestigationEngine.run` (investigation_engine.py:96-108): run the
descriptor loop, then unconditionally invoke `write_data_to_cif` on the
resulting store. -/
def InvestigationEngine_run (perform : String → Descriptor →
    InvestigationStorage → InvestigationStorage × Bool)
    (ops : List Descriptor) (s : InvestigationStorage) :
    List Descriptor × Except Unit (List (String × Items) × InvestigationStorage) :=
  ((runLoop perform ops s).2, write_data_to_cif (runLoop perform ops s).1)

/-! ## `CIFReader.build_denormalised_data` (investigation_io.py:85-208)

One parsed file is a `CifBlock`: the `_database_2.database_code` value
(`pdb_id`), the `_entity` rows, the `_entity_poly` rows and the
`_pdbx_entity_nonpoly` rows (an absent category behaves as an empty row
list).  `_diffrn_source.pdbx_synchrotron_site` values are carried for the
synchrotron pass. -/

structure EntityRow where
  id : String
  type : String
  src_method : String
  description : String
deriving Repr, DecidableEq

structure PolyRow where
  entity_id : String
  seq : String
  poly_type : String
deriving Repr, DecidableEq

structure NonpolyRow where
  entity_id : String
  comp_id : String
deriving Repr, DecidableEq

structure CifBlock where
  pdb_id : String
  entities : List EntityRow
  polys : List PolyRow
  nonpolys : List NonpolyRow
  diffrn_sites : List String
deriving Repr, DecidableEq

/-- A row of the denormalised table as built (the `INSERT` of lines
186-208).  `ordinal` is `none` for entity kinds other than
polymer/non-polymer/water (Python leaves the empty string in the INT
column); the enrichment columns start as `none` (SQL `NULL`). -/
structure DenormRow where
  ordinal : Option Nat
  pdb_id : String
  file_name : String
  model_file_no : String
  entity_id : String
  type : String
  seq_one_letter_code : String
  chem_comp_id : String
  src_method : String
  poly_type : String
  description : String
  poly_descript : Option Nat
  nonpoly_descript : Option Nat
  sample_id : Option Nat
  synchrotron_site : Option String
  campaign_id : Option Nat
  series_id : Option Nat
deriving Repr, DecidableEq

/-- The inner `for poly_row in entity_poly_category` scan (lines 127-139):
every matching row overwrites `seq_one_letter_code`/`poly_type`, so the
*last* match wins; no match leaves `("", "")`. -/
def seqOfEntity (polys : List PolyRow) (eid : String) : String × String :=
  polys.foldl (fun acc p =>
    if p.entity_id = eid then (p.seq, p.poly_type) else acc) ("", "")

/-- The inner `for nonpoly_row ...` scan (lines 150-161): last match wins. -/
def compOfEntity (nonpolys : List NonpolyRow) (eid : String) : String :=
  nonpolys.foldl (fun acc p =>
    if p.entity_id = eid then p.comp_id else acc) ""

/-- The `ordinals.get(key, False) / allocate-on-miss` block (lines 141-145
and 162-166), shared verbatim by both builders: returns the updated shared
fingerprint map, the updated class counter, and the ordinal.  (Stored
ordinals are always ≥ 1, so Python's falsy-`ordinal` test coincides with
the map miss modelled by `none`.) -/
def assignOrdinal (ordinals : List (String × Nat)) (next : Nat) (k : String) :
    List (String × Nat) × Nat × Nat :=
  match alookup ordinals k with
  | some v => (ordinals, next, v)
  | none => (ordinals ++ [(k, next)], next + 1, next)

/-- Loop state of `build_denormalised_data`: the shared `ordinals` dict,
the two class counters, and the carried-over Python local `poly_type`
(only (re)assigned inside the polymer branch, so non-polymer rows see the
previous polymer row's value; Python would raise `UnboundLocalError` if
the very first entity is not a polymer - the embedding initialises the
carried variable to `""`, which agrees with every non-crashing run). -/
structure OrdState where
  ordinals : List (String × Nat)
  nextPoly : Nat
  nextNonpoly : Nat
  polyTypeVar : String
deriving Repr, DecidableEq

def initOrdState : OrdState := { ordinals := [], nextPoly := 1, nextNonpoly := 1, polyTypeVar := "" }

/-- Build the denormalised row shared by all branches (lines 168-182). -/
def mkDenormRow (fileName pdbId : String) (e : EntityRow)
    (ordinal : Option Nat) (seq comp ptype : String) : DenormRow :=
  { ordinal := ordinal
    pdb_id := pdbId
    file_name := fileName
    model_file_no := ""
    entity_id := e.id
    type := e.type
    seq_one_letter_code := trimSeq seq
    chem_comp_id := comp
    src_method := e.src_method
    poly_type := pyStrip ['\''] ptype
    description := trimDescription e.description
    poly_descript := none
    nonpoly_descript := none
    sample_id := none
    synchrotron_site := none
    campaign_id := none
    series_id := none }

/-- Process one `_entity` row (lines 113-182). -/
def processEntity (fileName pdbId : String) (polys : List PolyRow)
    (nonpolys : List NonpolyRow) (st : OrdState) (e : EntityRow) :
    OrdState × DenormRow :=
  if e.type = "polymer" then
    let sp := seqOfEntity polys e.id
    let a := assignOrdinal st.ordinals st.nextPoly sp.1
    ({ st with ordinals := a.1, nextPoly := a.2.1, polyTypeVar := sp.2 },
     mkDenormRow fileName pdbId e (some a.2.2) sp.1 "" sp.2)
  else if e.type = "water" ∨ e.type = "non-polymer" then
    let comp := compOfEntity nonpolys e.id
    let a := assignOrdinal st.ordinals st.nextNonpoly comp
    ({ st with ordinals := a.1, nextNonpoly := a.2.1 },
     mkDenormRow fileName pdbId e (some a.2.2) "" comp st.polyTypeVar)
  else
    (st, mkDenormRow fileName pdbId e none "" "" st.polyTypeVar)

/-- The per-entity context: file name, its block, and one `_entity` row. -/
abbrev EntityCtx := String × CifBlock × EntityRow

/-- Flatten the `for file ... for row in entity_category` double loop into
one context list, in traversal order. -/
def flatCtx (files : List (String × CifBlock)) : List EntityCtx :=
  files.flatMap (fun fb => fb.2.entities.map (fun e => (fb.1, fb.2, e)))

def processCtx (st : OrdState) (c : EntityCtx) : OrdState × DenormRow :=
  processEntity c.1 c.2.1.pdb_id c.2.1.polys c.2.1.nonpolys st c.2.2

/-- Run the entity loop over a context list, accumulating rows in order. -/
def runCtx (st : OrdState) : List EntityCtx → OrdState × List DenormRow
  | [] => (st, [])
  | c :: cs =>
    let r := processCtx st c
    let q := runCtx r.1 cs
    (q.1, r.2 :: q.2)

/-- `build_denormalised_data`: the denormalised table, one row per entity
in traversal order. -/
def buildDenormalisedData (files : List (String × CifBlock)) : List DenormRow :=
  (runCtx initOrdState (flatCtx files)).2

/-- The content fingerprint a context is keyed by in the `ordinals` dict:
the *raw* `seq_one_letter_code` for polymers (the `.strip(";").rstrip('\n')`
of line 176 happens only after the lookup), the component id for
non-polymer/water, `none` for other kinds. -/
def ctxKey (c : EntityCtx) : Option String :=
  if c.2.2.type = "polymer" then some (seqOfEntity c.2.1.polys c.2.2.id).1
  else if c.2.2.type = "water" ∨ c.2.2.type = "non-polymer" then
    some (compOfEntity c.2.1.nonpolys c.2.2.id)
  else none

/-! ## Description-group / sample / synchrotron enrichment
(investigation_io.py:210-313, 347-390)

The grouping SQL is modelled with SQLite's concrete behaviour on this
schema (in-memory table, no indexes):
* the inner `... ORDER BY investigation_entity_id` subquery sorts the
  partition's rows by ordinal ascending;
* `GROUP BY pdb_id` emits one group per distinct `pdb_id` in ascending
  order, and `GROUP_CONCAT` joins the group's ordinals with `","` in the
  sorted order they arrive from the subquery;
* the outer `GROUP BY set_of_poly` emits the distinct concatenation
  strings in ascending string order, and `enumerate` numbers them from 1;
* `UPDATE ... WHERE poly_descript = "None"` never matches (`NULL = 'None'`
  is `NULL`), so rows whose group column is `NULL` keep a `NULL`
  `sample_id`. -/

/-- Insertion into a `le`-sorted list. -/
def insertLe {α : Type} (le : α → α → Bool) (a : α) : List α → List α
  | [] => [a]
  | b :: bs => if le a b then a :: b :: bs else b :: insertLe le a bs

/-- Insertion sort by `le`. -/
def sortLe {α : Type} (le : α → α → Bool) : List α → List α
  | [] => []
  | a :: as => insertLe le a (sortLe le as)

/-- `GROUP BY` key enumeration: the distinct values in ascending order. -/
def sortedDistinct {α : Type} [DecidableEq α] (le : α → α → Bool)
    (xs : List α) : List α :=
  sortLe le xs.dedup

/-- Index of the first occurrence of `a` (list length when absent). -/
def posOf {α : Type} [DecidableEq α] (a : α) : List α → Nat
  | [] => 0
  | b :: bs => if b = a then 0 else posOf a bs + 1

def natLe (a b : Nat) : Bool := decide (a ≤ b)

/-- Code-point lexicographic strict order on character lists (SQLite's
default `BINARY` text collation: memcmp on the UTF-8 bytes, which on these
ASCII key strings is code-point order). -/
def strLtChars : List Char → List Char → Bool
  | _, [] => false
  | [], _ :: _ => true
  | a :: as, b :: bs =>
    if a.toNat < b.toNat then true
    else if b.toNat < a.toNat then false
    else strLtChars as bs

def strLe (a b : String) : Bool := !(strLtChars b.toList a.toList)

def joinComma : List String → String
  | [] => ""
  | [x] => x
  | x :: xs => x ++ "," ++ joinComma xs

/-- `WHERE type="polymer"`. -/
def isPolyRow (r : DenormRow) : Bool := decide (r.type = "polymer")

/-- `WHERE type="non-polymer" OR type="water"`. -/
def isNonpolyRow (r : DenormRow) : Bool :=
  decide (r.type = "non-polymer") || decide (r.type = "water")

/-- The ordinals of one source's rows in one partition, in row order
(rows whose ordinal column is not an integer cannot occur in these
partitions for built tables, and are dropped here). -/
def rawPartOrdinals (part : DenormRow → Bool) (rows : List DenormRow)
    (p : String) : List Nat :=
  (rows.filter (fun r => part r && decide (r.pdb_id = p))).filterMap
    (fun r => r.ordinal)

/-- The same ordinals sorted ascending (the inner
`ORDER BY investigation_entity_id` subquery restricted to one `pdb_id`
group). -/
def partOrdinals (part : DenormRow → Bool) (rows : List DenormRow)
    (p : String) : List Nat :=
  sortLe natLe (rawPartOrdinals part rows p)

/-- `GROUP_CONCAT(investigation_entity_id)` for one source. -/
def concatOf (part : DenormRow → Bool) (rows : List DenormRow)
    (p : String) : String :=
  joinComma ((partOrdinals part rows p).map toString)

/-- The `GROUP BY pdb_id` groups: distinct source ids of the partition. -/
def partPdbs (part : DenormRow → Bool) (rows : List DenormRow) : List String :=
  sortedDistinct strLe ((rows.filter part).map (fun r => r.pdb_id))

/-- `SELECT DISTINCT(set_of_poly) ... GROUP BY set_of_poly`: the distinct
concatenation strings, ascending. -/
def uniqueConcats (part : DenormRow → Bool) (rows : List DenormRow) :
    List String :=
  sortedDistinct strLe ((partPdbs part rows).map (concatOf part rows))

/-- `poly_descript[...] = i + 1` over `enumerate(unique_poly)`: the group
id of a source is 1 + the index of its concatenation string. -/
def groupIdOf (part : DenormRow → Bool) (rows : List DenormRow)
    (p : String) : Nat :=
  posOf (concatOf part rows p) (uniqueConcats part rows) + 1

/-- The `(pdb_id, group id)` pairs driving the `UPDATE` loop
(`all_poly_groups` with `poly_descript[group[1]]`). -/
def groupPairs (part : DenormRow → Bool) (rows : List DenormRow) :
    List (String × Nat) :=
  (partPdbs part rows).map (fun p => (p, groupIdOf part rows p))

/-- `add_descript_categories`: the polymer queries and updates run first,
then the non-polymer queries (against the poly-updated table - the columns
they read are untouched) and updates. -/
def add_descript_categories (rows0 : List DenormRow) : List DenormRow :=
  let rows1 := (groupPairs isPolyRow rows0).foldl (fun acc pg =>
    acc.map (fun r => if r.pdb_id = pg.1 then
      { r with poly_descript := some pg.2 } else r)) rows0
  (groupPairs isNonpolyRow rows1).foldl (fun acc pg =>
    acc.map (fun r => if r.pdb_id = pg.1 then
      { r with nonpoly_descript := some pg.2 } else r)) rows1

def optNatLe : Option Nat → Option Nat → Bool
  | none, _ => true
  | some _, none => false
  | some a, some b => decide (a ≤ b)

/-- `GROUP BY poly_descript, nonpoly_descript` key order: `NULL` first,
then integers ascending, lexicographic on the pair. -/
def pairLe (x y : Option Nat × Option Nat) : Bool :=
  if x.1 = y.1 then optNatLe x.2 y.2 else optNatLe x.1 y.1

def uniqueSamplePairs (rows : List DenormRow) : List (Option Nat × Option Nat) :=
  sortedDistinct pairLe (rows.map (fun r => (r.poly_descript, r.nonpoly_descript)))

/-- `WHERE poly_descript = "{sample[0]}" AND nonpoly_descript =
"{sample[1]}"`: a `None` group value renders as the literal `'None'`,
which never matches (`NULL = 'None'` is `NULL`, integers never equal the
text `'None'`). -/
def sampleMatches (pd nd : Option Nat) (r : DenormRow) : Bool :=
  (match pd with
   | some v => decide (r.poly_descript = some v)
   | none => false) &&
  (match nd with
   | some v => decide (r.nonpoly_descript = some v)
   | none => false)

/-- `add_sample_category` (investigation_io.py:299-313). -/
def add_sample_category (rows : List DenormRow) : List DenormRow :=
  (uniqueSamplePairs rows).enum.foldl (fun acc ip =>
    acc.map (fun r => if sampleMatches ip.2.1 ip.2.2 r then
      { r with sample_id := some (ip.1 + 1) } else r)) rows

/-- The campaign map fold of `add_synchrotron_data` (lines 347-378):
a dense campaign id per distinct synchrotron site, first-seen order,
collecting `(pdb_id, site, campaign_id)` rows in traversal order. -/
def synchrotronStep (st : List (String × Nat) × Nat × List (String × String × Nat))
    (pdb site : String) : List (String × Nat) × Nat × List (String × String × Nat) :=
  match alookup st.1 site with
  | some cid => (st.1, st.2.1, st.2.2 ++ [(pdb, site, cid)])
  | none => (st.1 ++ [(site, st.2.1)], st.2.1 + 1, st.2.2 ++ [(pdb, site, st.2.1)])

def synchrotronAssignments (files : List (String × CifBlock)) :
    List (String × String × Nat) :=
  (files.foldl (fun st fb =>
    fb.2.diffrn_sites.foldl (fun st2 site => synchrotronStep st2 fb.2.pdb_id site) st)
    ([], 1, [])).2.2

/-- The `UPDATE` loop of `add_synchrotron_data` (lines 379-390): per
assignment row, stamp site/campaign/series on every row of that source
(later assignments for the same source overwrite earlier ones). -/
def add_synchrotron_data (files : List (String × CifBlock))
    (rows : List DenormRow) : List DenormRow :=
  (synchrotronAssignments files).foldl (fun acc t =>
    acc.map (fun r => if r.pdb_id = t.1 then
      { r with synchrotron_site := some t.2.1, campaign_id := some t.2.2,
               series_id := some t.2.2 } else r)) rows

/-- The identity-assigning prefix of `InvestigationEngine.pre_run`
(investigation_engine.py:38-49): build the table, assign description
groups, sample ids and campaign ids.  (`add_struct_ref_data`,
`add_exptl_data` and `add_investigation_id` only copy text columns and
touch none of these ids.) -/
def pipelineIds (files : List (String × CifBlock)) : List DenormRow :=
  add_synchrotron_data files
    (add_sample_category (add_descript_categories (buildDenormalisedData files)))

/-! ## `InvestigationPdbe.build_denormalised_data`
(mmcif_gen/facilities/pdbe.py:433-599)

Raw mmCIF values are `Option String` (`none` = the column is missing from
the row / the index access raises).  `safe_extract_field` never raises: it
returns the cleaned value or the default `""`, so the `try`/`except
... continue` around the entity extraction never fires.  Batched insertion
(`_insert_batch`) flushes rows to SQLite in arrival order, so the final
table is the concatenation of the appended rows. -/

/-- The character set Python's bare `str.strip()` removes. -/
def pyWhitespace : List Char := [' ', '\t', '\n', '\r', '\x0b', '\x0c']

/-- `clean_text_field` (pdbe.py:277-281):
`text.strip("'").strip('"').strip(";").strip("\n").strip()`,
with falsy input mapped to `""`. -/
def clean_text_field (s : String) : String :=
  if s = "" then ""
  else pyStrip pyWhitespace
    (pyStrip ['\n'] (pyStrip [';'] (pyStrip ['"'] (pyStrip ['\''] s))))

/-- `safe_extract_field` (pdbe.py:199-211): default `""` when the field is
absent or falsy, otherwise the cleaned value. -/
def safe_extract_field (v : Option String) : String :=
  match v with
  | none => ""
  | some s => if s = "" then "" else clean_text_field s

structure PdbeEntityRaw where
  id : Option String
  type : Option String
  src_method : Option String
  description : Option String
deriving Repr, DecidableEq

structure PdbePolyRaw where
  entity_id : Option String
  seq : Option String
  seq_can : Option String
  poly_type : Option String
deriving Repr, DecidableEq

structure PdbeNonpolyRaw where
  entity_id : Option String
  comp_id : Option String
deriving Repr, DecidableEq

structure PdbeTaxRaw where
  entity_id : Option String
  organism : Option String
  ncbi : Option String
deriving Repr, DecidableEq

/-- One parsed file for the PDBe builder.  `db_code` encodes the
`_database_2` extraction (pdbe.py:481-487): `none` = category absent or
with no rows (`pdb_id` stays `""`), `some none` = present but the
`database_code` access raises (`pdb_id` falls back to the upper-cased file
name), `some (some c)` = the extracted code. -/
structure PdbeBlock where
  db_code : Option (Option String)
  entities : List PdbeEntityRaw
  polys : List PdbePolyRaw
  nonpolys : List PdbeNonpolyRaw
  nat_tax : List PdbeTaxRaw
  man_tax : List PdbeTaxRaw
  syn_tax : List PdbeTaxRaw
deriving Repr, DecidableEq

/-- A row of the PDBe denormalised table (pdbe.py:564-579). -/
structure PdbeRow where
  ordinal : Option Nat
  pdb_id : String
  file_name : String
  model_file_no : String
  entity_id : String
  type : String
  seq_one_letter_code : String
  seq_one_letter_code_can : String
  chem_comp_id : String
  src_method : String
  poly_type : String
  description : String
  organism_scientific : String
  ncbi_taxonomy_id : String
deriving Repr, DecidableEq

/-- `build_taxonomy_lookups` (pdbe.py:283-342), one source class: a row
whose id/organism/ncbi access raises is skipped with a warning; later rows
for the same entity overwrite earlier ones (dict assignment). -/
def buildTaxLookup (rows : List PdbeTaxRaw) : List (String × String × String) :=
  rows.foldl (fun acc r =>
    match r.entity_id, r.organism, r.ncbi with
    | some eid, some org, some nc =>
      dictSet acc eid (clean_text_field org, clean_text_field nc)
    | _, _, _ => acc) []

/-- `build_polymer_lookup` (pdbe.py:344-367). -/
def buildPolymerLookup (rows : List PdbePolyRaw) :
    List (String × String × String × String) :=
  rows.foldl (fun acc r =>
    let eid := safe_extract_field r.entity_id
    if eid = "" then acc
    else dictSet acc eid (safe_extract_field r.seq,
      safe_extract_field r.seq_can, safe_extract_field r.poly_type)) []

/-- `build_nonpoly_lookup` (pdbe.py:369-384). -/
def buildNonpolyLookup (rows : List PdbeNonpolyRaw) : List (String × String) :=
  rows.foldl (fun acc r =>
    let eid := safe_extract_field r.entity_id
    if eid = "" then acc
    else dictSet acc eid (safe_extract_field r.comp_id)) []

/-- The per-file `pdb_id` (pdbe.py:481-487). -/
def pdbePdbId (fileName : String) (b : PdbeBlock) : String :=
  match b.db_code with
  | none => ""
  | some none => (fileName.replace ".cif" "").toUpper
  | some (some c) => c

/-- Taxonomy merge (pdbe.py:527-535): pick the lookup matching the
origin-method tag, else leave both fields empty. -/
def taxFor (taxNat taxMan taxSyn : List (String × String × String))
    (srcMethod eid : String) : String × String :=
  if srcMethod = "nat" then (alookup taxNat eid).getD ("", "")
  else if srcMethod = "man" then (alookup taxMan eid).getD ("", "")
  else if srcMethod = "syn" then (alookup taxSyn eid).getD ("", "")
  else ("", "")

structure PdbeOrdState where
  ordinals : List (String × Nat)
  nextPoly : Nat
  nextNonpoly : Nat
deriving Repr, DecidableEq

/-- Process one `_entity` row of the PDBe builder (pdbe.py:500-581):
`none` models the `continue` that drops the row (empty source id or empty
entity id). -/
def processPdbeEntity (fileName pdbId : String)
    (taxNat taxMan taxSyn : List (String × String × String))
    (polyLk : List (String × String × String × String))
    (nonpolyLk : List (String × String))
    (st : PdbeOrdState) (e : PdbeEntityRaw) : PdbeOrdState × Option PdbeRow :=
  let entity_id := safe_extract_field e.id
  let entity_type := safe_extract_field e.type
  let src_method0 := safe_extract_field e.src_method
  let description := safe_extract_field e.description
  if pdbId = "" then (st, none)
  else if entity_id = "" then (st, none)
  else
    let tax := taxFor taxNat taxMan taxSyn src_method0 entity_id
    let src_method := clean_text_field src_method0
    if entity_type = "polymer" then
      let pd := (alookup polyLk entity_id).getD ("", "", "")
      let a := assignOrdinal st.ordinals st.nextPoly pd.1
      ({ st with ordinals := a.1, nextPoly := a.2.1 },
       some { ordinal := some a.2.2, pdb_id := pdbId, file_name := fileName,
              model_file_no := "", entity_id := entity_id, type := entity_type,
              seq_one_letter_code := trimSeq pd.1,
              seq_one_letter_code_can := trimSeq pd.2.1,
              chem_comp_id := "", src_method := src_method,
              poly_type := pyStrip ['\''] pd.2.2, description := description,
              organism_scientific := tax.1, ncbi_taxonomy_id := tax.2 })
    else if entity_type = "water" ∨ entity_type = "non-polymer" then
      let comp := (alookup nonpolyLk entity_id).getD ""
      let a := assignOrdinal st.ordinals st.nextNonpoly comp
      ({ st with ordinals := a.1, nextNonpoly := a.2.1 },
       some { ordinal := some a.2.2, pdb_id := pdbId, file_name := fileName,
              model_file_no := "", entity_id := entity_id, type := entity_type,
              seq_one_letter_code := trimSeq "", seq_one_letter_code_can := trimSeq "",
              chem_comp_id := comp, src_method := src_method,
              poly_type := pyStrip ['\''] "", description := description,
              organism_scientific := tax.1, ncbi_taxonomy_id := tax.2 })
    else
      (st, some { ordinal := none, pdb_id := pdbId, file_name := fileName,
                  model_file_no := "", entity_id := entity_id, type := entity_type,
                  seq_one_letter_code := trimSeq "", seq_one_letter_code_can := trimSeq "",
                  chem_comp_id := "", src_method := src_method,
                  poly_type := pyStrip ['\''] "", description := description,
                  organism_scientific := tax.1, ncbi_taxonomy_id := tax.2 })

/-- The entity loop of one file. -/
def runPdbeEntities (fileName pdbId : String)
    (taxNat taxMan taxSyn : List (String × String × String))
    (polyLk : List (String × String × String × String))
    (nonpolyLk : List (String × String)) (st : PdbeOrdState) :
    List PdbeEntityRaw → PdbeOrdState × List PdbeRow
  | [] => (st, [])
  | e :: es =>
    let r := processPdbeEntity fileName pdbId taxNat taxMan taxSyn polyLk nonpolyLk st e
    let q := runPdbeEntities fileName pdbId taxNat taxMan taxSyn polyLk nonpolyLk r.1 es
    (q.1, r.2.toList ++ q.2)

/-- The per-file loop of the PDBe builder, threading the shared ordinal
state and concatenating each file's rows in order. -/
def pdbeBuildGo (st : PdbeOrdState) : List (String × PdbeBlock) → List PdbeRow
  | [] => []
  | fb :: fs =>
    (runPdbeEntities fb.1 (pdbePdbId fb.1 fb.2) (buildTaxLookup fb.2.nat_tax)
        (buildTaxLookup fb.2.man_tax) (buildTaxLookup fb.2.syn_tax)
        (buildPolymerLookup fb.2.polys) (buildNonpolyLookup fb.2.nonpolys)
        st fb.2.entities).2
      ++ pdbeBuildGo
        (runPdbeEntities fb.1 (pdbePdbId fb.1 fb.2) (buildTaxLookup fb.2.nat_tax)
          (buildTaxLookup fb.2.man_tax) (buildTaxLookup fb.2.syn_tax)
          (buildPolymerLookup fb.2.polys) (buildNonpolyLookup fb.2.nonpolys)
          st fb.2.entities).1 fs

/-- `InvestigationPdbe.build_denormalised_data`: process the files in
order, threading the shared ordinal state. -/
def pdbeBuildDenormalisedData (files : List (String × PdbeBlock)) : List PdbeRow :=
  pdbeBuildGo { ordinals := [], nextPoly := 1, nextNonpoly := 1 } files

/-! ## Concrete instances used by counterexamples and witnesses -/

def emptyStorage : InvestigationStorage := { data := [], mmcif_order := [] }

/-- A store with one category whose two items have lengths 2 and 1. -/
def mismatchStorage : InvestigationStorage :=
  { data := [("cat", [("x", ["1", "2"]), ("y", ["1"])])], mmcif_order := [] }

/-- Two one-polymer sources whose raw sequences differ only by a trailing
newline, so their trimmed sequences agree. -/
def cifRawA : CifBlock :=
  { pdb_id := "1AAA",
    entities := [{ id := "1", type := "polymer", src_method := "man", description := "d" }],
    polys := [{ entity_id := "1", seq := "A", poly_type := "t" }],
    nonpolys := [], diffrn_sites := [] }

def cifRawB : CifBlock :=
  { pdb_id := "2BBB",
    entities := [{ id := "1", type := "polymer", src_method := "man", description := "d" }],
    polys := [{ entity_id := "1", seq := "A\n", poly_type := "t" }],
    nonpolys := [], diffrn_sites := [] }

/-- A source with two polymer entities of the same sequence (ordinal
multiset `[1, 1]`). -/
def cifDupA : CifBlock :=
  { pdb_id := "1AAA",
    entities := [{ id := "1", type := "polymer", src_method := "man", description := "d" },
                 { id := "2", type := "polymer", src_method := "man", description := "d" }],
    polys := [{ entity_id := "1", seq := "AAA", poly_type := "t" },
              { entity_id := "2", seq := "AAA", poly_type := "t" }],
    nonpolys := [], diffrn_sites := [] }

/-- A source with a single polymer entity of that same sequence (ordinal
multiset `[1]`). -/
def cifDupB : CifBlock :=
  { pdb_id := "2BBB",
    entities := [{ id := "1", type := "polymer", src_method := "man", description := "d" }],
    polys := [{ entity_id := "1", seq := "AAA", poly_type := "t" }],
    nonpolys := [], diffrn_sites := [] }

def descBad : Descriptor := { operation := some "bogus", payload := "step-1" }

def descNoop : Descriptor := { operation := some "noop", payload := "step-2" }

/-- A perform function that records the resolved kind in the store and
never raises. -/
def performRecord : String → Descriptor → InvestigationStorage →
    InvestigationStorage × Bool :=
  fun k _ s => (set_items s "ran" [(k, ["1"])], false)

/-- A perform function that always raises after mutating nothing. -/
def performRaise : String → Descriptor → InvestigationStorage →
    InvestigationStorage × Bool :=
  fun _ _ s => (s, true)

/-- A store whose category `catA` declares the order `[w, u]`. -/
def orderedStorage : InvestigationStorage :=
  { data := [("catA", [("u", ["1"]), ("v", ["2"]), ("w", ["3"])]),
             ("catB", [("x", ["4"])])],
    mmcif_order := [("catA", ["w", "u"])] }

/-- A store whose declared order names an item absent from the category. -/
def missingOrderStorage : InvestigationStorage :=
  { data := [("catA", [("u", ["1"])])], mmcif_order := [("catA", ["missing"])] }

/-- A PDBe source with a valid id and one empty-id entity. -/
def pdbeBlockA : PdbeBlock :=
  { db_code := some (some "1AAA"),
    entities := [{ id := some "", type := some "polymer", src_method := some "man",
                   description := some "d" },
                 { id := some "7", type := some "polymer", src_method := some "man",
                   description := some "d" }],
    polys := [], nonpolys := [], nat_tax := [], man_tax := [], syn_tax := [] }

/-- The two duplicate-sequence sources as a file list. -/
def dupFiles : List (String × CifBlock) := [("g1.cif", cifDupA), ("g2.cif", cifDupB)]

/-- The traversal context of `g1.cif`'s first entity. -/
def dupCtx1 : EntityCtx :=
  ("g1.cif", cifDupA, { id := "1", type := "polymer", src_method := "man",
                        description := "d" })

/-- The traversal context of `g2.cif`'s entity. -/
def dupCtx3 : EntityCtx :=
  ("g2.cif", cifDupB, { id := "1", type := "polymer", src_method := "man",
                        description := "d" })

/-- The built row of `g1.cif`'s first entity. -/
def dupRow1 : DenormRow :=
  { ordinal := some 1, pdb_id := "1AAA", file_name := "g1.cif",
    model_file_no := "", entity_id := "1", type := "polymer",
    seq_one_letter_code := "AAA", chem_comp_id := "", src_method := "man",
    poly_type := "t", description := "d", poly_descript := none,
    nonpoly_descript := none, sample_id := none, synchrotron_site := none,
    campaign_id := none, series_id := none }

/-- The built row of `g2.cif`'s entity. -/
def dupRow3 : DenormRow :=
  { ordinal := some 1, pdb_id := "2BBB", file_name := "g2.cif",
    model_file_no := "", entity_id := "1", type := "polymer",
    seq_one_letter_code := "AAA", chem_comp_id := "", src_method := "man",
    poly_type := "t", description := "d", poly_descript := none,
    nonpoly_descript := none, sample_id := none, synchrotron_site := none,
    campaign_id := none, series_id := none }

/-- `dupRow1` after description-group assignment (`1AAA` gets group 2). -/
def dupGRow1 : DenormRow := { dupRow1 with poly_descript := some 2 }

/-- The second `1AAA` row after description-group assignment. -/
def dupGRow2 : DenormRow :=
  { dupRow1 with entity_id := "2", poly_descript := some 2 }

/-- The single row the PDBe builder produces from `pdbeBlockA`. -/
def pdbeRowA : PdbeRow :=
  { ordinal := some 1, pdb_id := "1AAA", file_name := "a.cif",
    model_file_no := "", entity_id := "7", type := "polymer",
    seq_one_letter_code := "", seq_one_letter_code_can := "",
    chem_comp_id := "", src_method := "man", poly_type := "",
    description := "d", organism_scientific := "", ncbi_taxonomy_id := "" }

/-! # Theorems -/

/-! ## Association-list lemmas -/

theorem alookup_append_none {α : Type} {l : List (String × α)} {q : String}
    (m : List (String × α)) (h : alookup l q = none) :
    alookup (l ++ m) q = alookup m q := by
  induction l with
  | nil => rfl
  | cons p rest ih =>
    obtain ⟨a, b⟩ := p
    by_cases hq : a = q
    · simp [alookup, hq] at h
    · simp only [alookup, if_neg hq] at h ⊢
      exact ih h

theorem alookup_append_some {α : Type} {l : List (String × α)} {q : String}
    {v : α} (m : List (String × α)) (h : alookup l q = some v) :
    alookup (l ++ m) q = some v := by
  induction l with
  | nil => simp [alookup] at h
  | cons p rest ih =>
    obtain ⟨a, b⟩ := p
    by_cases hq : a = q
    · simp only [alookup, if_pos hq] at h ⊢
      exact h
    · simp only [alookup, if_neg hq] at h ⊢
      exact ih h

theorem alookup_cons {α : Type} (a : String) (v : α) (l : List (String × α))
    (q : String) : alookup ((a, v) :: l) q = if a = q then some v else alookup l q :=
  rfl

theorem alookup_contains {α : Type} (m : List (String × α)) (k : String) :
    (m.map Prod.fst).contains k = true ↔ (alookup m k).isSome := by
  induction m with
  | nil => simp [alookup]
  | cons p rest ih =>
    obtain ⟨a, b⟩ := p
    by_cases h : a = k
    · simp [alookup, h]
    · have hne : ¬ (k == a) = true := by
        simp only [beq_iff_eq]
        exact fun e => h e.symm
      simp only [List.map_cons, List.contains_cons, alookup_cons, if_neg h]
      simp only [Bool.or_eq_true, hne, false_or, Bool.false_eq_true]
      exact ih

theorem alookup_not_contains {α : Type} (m : List (String × α)) (k : String)
    (h : ¬ (m.map Prod.fst).contains k = true) : alookup m k = none := by
  cases ha : alookup m k with
  | none => rfl
  | some v => exact absurd ((alookup_contains m k).mpr (by simp [ha])) h

theorem alookup_mapIf {α : Type} (m : List (String × α)) (k q : String)
    (g : String × α → α) :
    alookup (m.map (fun p => if p.1 = k then (p.1, g p) else p)) q
      = if k = q then (alookup m q).map (fun b => g (q, b)) else alookup m q := by
  induction m with
  | nil => simp [alookup]
  | cons p rest ih =>
    obtain ⟨a, b⟩ := p
    have hh : (if ((a, b) : String × α).1 = k then ((a, b).1, g (a, b)) else (a, b))
        = (a, if a = k then g (a, b) else b) := by
      by_cases h : a = k <;> simp [h]
    rw [List.map_cons, hh, alookup_cons, alookup_cons, ih]
    by_cases hak : a = k
    · subst hak
      by_cases haq : a = q
      · subst haq
        simp
      · simp [if_neg haq]
    · by_cases haq : a = q
      · subst haq
        have hka : ¬ k = a := fun e => hak e.symm
        simp [if_neg hak, if_pos rfl, if_neg hka]
      · simp [if_neg haq]

theorem alookup_dictSet {α : Type} (m : List (String × α)) (k : String) (v : α) :
    alookup (dictSet m k v) k = some v := by
  unfold dictSet
  by_cases h : (m.map Prod.fst).contains k = true
  · rw [if_pos h, alookup_mapIf, if_pos rfl]
    rcases Option.isSome_iff_exists.mp ((alookup_contains m k).mp h) with ⟨w, hw⟩
    simp [hw]
  · rw [if_neg h, alookup_append_none _ (alookup_not_contains m k h)]
    simp [alookup]

theorem alookup_add_category (d : List (String × Items)) (c : String) :
    alookup (add_category d c) c = some ((alookup d c).getD []) := by
  unfold add_category
  by_cases h : (d.map Prod.fst).contains c = true
  · rw [if_pos h]
    rcases Option.isSome_iff_exists.mp ((alookup_contains d c).mp h) with ⟨w, hw⟩
    simp [hw]
  · rw [if_neg h, alookup_append_none _ (alookup_not_contains d c h),
      alookup_not_contains d c h]
    simp [alookup]

theorem alookup_setItemsOne (its : Items) (i : String) (vs : List String) :
    alookup (setItemsOne its i vs) i = some ((alookup its i).getD [] ++ vs) := by
  unfold setItemsOne
  by_cases h : (its.map Prod.fst).contains i = true
  · rw [if_pos h, alookup_mapIf, if_pos rfl]
    rcases Option.isSome_iff_exists.mp ((alookup_contains its i).mp h) with ⟨w, hw⟩
    simp [hw]
  · rw [if_neg h, alookup_mapIf, if_pos rfl]
    have he : alookup (its ++ [(i, [])]) i = some ([] : List String) := by
      rw [alookup_append_none _ (alookup_not_contains its i h)]
      simp [alookup]
    rw [he, alookup_not_contains its i h]
    simp

theorem get_item_data_set_items (s : InvestigationStorage) (c i : String)
    (vs : List String) :
    get_item_data (set_items s c [(i, vs)]) c i
      = some ((get_item_data s c i).getD [] ++ vs) := by
  unfold get_item_data set_items
  simp only [List.foldl_cons, List.foldl_nil, updateCat]
  rw [alookup_mapIf, if_pos rfl, alookup_add_category]
  cases hd : alookup s.data c with
  | none =>
    show alookup (setItemsOne ([] : Items) i vs) i
      = some ((alookup ([] : Items) i).getD [] ++ vs)
    exact alookup_setItemsOne [] i vs
  | some its =>
    show alookup (setItemsOne its i vs) i
      = some ((alookup its i).getD [] ++ vs)
    exact alookup_setItemsOne its i vs

/-- C3 counterexample: two successive `set_item` writes to the same
category and item leave only the second value list, not the
concatenation `["a", "b"]` - `set_item` does not have append semantics. -/
theorem set_item_overwrites_cex :
    get_item_data (set_item (set_item emptyStorage "c" "i" ["a"]) "c" "i" ["b"])
        "c" "i" = some ["b"]
    ∧ some ["b"] ≠ some ["a", "b"] := by
  constructor
  · rfl
  · intro h
    simp at h

/-- C3 (amended): `set_items` appends - two successive `set_items` writes
targeting the same category/item leave the concatenation of both value
sequences after any existing values - while `set_item` *overwrites* the
item with the given value. -/
theorem set_items_appends_set_item_overwrites (s : InvestigationStorage)
    (c i : String) (vs1 vs2 v : List String) :
    get_item_data (set_items (set_items s c [(i, vs1)]) c [(i, vs2)]) c i
      = some ((get_item_data s c i).getD [] ++ vs1 ++ vs2)
    ∧ get_item_data (set_item s c i v) c i = some v := by
  constructor
  · rw [get_item_data_set_items, get_item_data_set_items]
    simp
  · unfold get_item_data set_item
    simp only [updateCat]
    rw [alookup_mapIf, if_pos rfl, alookup_add_category]
    simp [alookup_dictSet]

/-! ## `integrity_check` lemmas -/

theorem foldl_max_le_init (l : List Nat) (a : Nat) : a ≤ l.foldl Nat.max a := by
  induction l generalizing a with
  | nil => exact Nat.le_refl a
  | cons x xs ih => exact Nat.le_trans (Nat.le_max_left a x) (ih (Nat.max a x))

theorem foldl_max_le_of_mem {l : List Nat} {x : Nat} (a : Nat) (h : x ∈ l) :
    x ≤ l.foldl Nat.max a := by
  induction l generalizing a with
  | nil => cases h
  | cons y ys ih =>
    rcases List.mem_cons.mp h with rfl | hmem
    · exact Nat.le_trans (Nat.le_max_right a x) (foldl_max_le_init ys (Nat.max a x))
    · exact ih (Nat.max a y) hmem

theorem foldl_max_attained (l : List Nat) (a : Nat) :
    l.foldl Nat.max a = a ∨ l.foldl Nat.max a ∈ l := by
  induction l generalizing a with
  | nil => exact Or.inl rfl
  | cons x xs ih =>
    rcases ih (Nat.max a x) with h | h
    · rw [List.foldl_cons, h]
      rcases Nat.le_total x a with hxa | hax
      · left
        exact Nat.max_eq_left hxa
      · right
        have hmax : Nat.max a x = x := Nat.max_eq_right hax
        rw [hmax]
        exact List.mem_cons_self x xs
    · exact Or.inr (List.mem_cons_of_mem x h)

theorem pyMax_spec {l : List Nat} {m : Nat} (h : pyMax l = some m) :
    m ∈ l ∧ ∀ x ∈ l, x ≤ m := by
  cases l with
  | nil => cases h
  | cons x xs =>
    have hm : m = xs.foldl Nat.max x := by
      simpa [pyMax] using h.symm
    subst hm
    refine ⟨?_, ?_⟩
    · rcases foldl_max_attained xs x with h | h
      · rw [h]; exact List.mem_cons_self x xs
      · exact List.mem_cons_of_mem x h
    · intro y hy
      rcases List.mem_cons.mp hy with rfl | hy
      · exact foldl_max_le_init xs y
      · exact foldl_max_le_of_mem x hy

theorem pyMax_isSome {l : List Nat} (h : l ≠ []) : ∃ m, pyMax l = some m := by
  cases l with
  | nil => exact absurd rfl h
  | cons x xs => exact ⟨xs.foldl Nat.max x, rfl⟩

/-- The bad-item list computed for one category. -/
def catBad (items : Items) (m : Nat) : List (String × Nat) :=
  (items.filter (fun i => i.2.length ≠ m)).map (fun i => (i.1, i.2.length))

theorem integrityMismatches_cons_eq (c : String) (items : Items)
    (rest : List (String × Items)) {m : Nat} {r : MismatchReport}
    (hm : pyMax (items.map (fun i => i.2.length)) = some m)
    (hr : integrityMismatches rest = .ok r) :
    integrityMismatches ((c, items) :: rest)
      = .ok (if (catBad items m).isEmpty then r else (c, catBad items m) :: r) := by
  rw [integrityMismatches, hm, hr]
  rfl

/-- Inversion of one successful step of `integrityMismatches`. -/
theorem integrityMismatches_cons_ok {c : String} {items : Items}
    {rest : List (String × Items)} {rep : MismatchReport}
    (h : integrityMismatches ((c, items) :: rest) = .ok rep) :
    ∃ m r, pyMax (items.map (fun i => i.2.length)) = some m ∧
      integrityMismatches rest = .ok r ∧
      rep = (if (catBad items m).isEmpty then r else (c, catBad items m) :: r) := by
  cases hm : pyMax (items.map (fun i => i.2.length)) with
  | none =>
    rw [integrityMismatches, hm] at h
    cases h
  | some m =>
    cases hr : integrityMismatches rest with
    | error e =>
      rw [integrityMismatches, hm, hr] at h
      cases h
    | ok r =>
      rw [integrityMismatches_cons_eq c items rest hm hr] at h
      refine ⟨m, r, rfl, rfl, ?_⟩
      exact (Except.ok.inj h).symm

/-- The printed mismatch list of one category is empty iff all its items
have equal lengths. -/
theorem catBad_empty_iff {items : Items} {m : Nat}
    (h : pyMax (items.map (fun i => i.2.length)) = some m) :
    ((catBad items m).isEmpty = true
      ↔ ∀ a ∈ items, ∀ b ∈ items, a.2.length = b.2.length) := by
  obtain ⟨hmem, hle⟩ := pyMax_spec h
  rcases List.mem_map.mp hmem with ⟨w, hw, hwlen⟩
  rw [catBad, List.isEmpty_iff, List.map_eq_nil_iff, List.filter_eq_nil_iff]
  constructor
  · intro hf a ha b hb
    have hea : a.2.length = m := by
      have := hf a ha
      simpa using this
    have heb : b.2.length = m := by
      have := hf b hb
      simpa using this
    rw [hea, heb]
  · intro hall i hi
    have : i.2.length = m := by
      rw [← hwlen]
      exact hall i hi w hw
    simp [this]

theorem integrityMismatches_ok {d : List (String × Items)}
    (h : ∀ ci ∈ d, ci.2 ≠ []) : ∃ rep, integrityMismatches d = .ok rep := by
  induction d with
  | nil => exact ⟨[], rfl⟩
  | cons ci rest ih =>
    obtain ⟨c, items⟩ := ci
    have hne : items.map (fun i => i.2.length) ≠ [] := by
      intro he
      exact h (c, items) (List.mem_cons_self _ _) (List.map_eq_nil_iff.mp he)
    obtain ⟨m, hm⟩ := pyMax_isSome hne
    obtain ⟨r, hr⟩ := ih (fun x hx => h x (List.mem_cons_of_mem _ hx))
    exact ⟨_, integrityMismatches_cons_eq c items rest hm hr⟩

theorem integrityMismatches_names {d : List (String × Items)}
    {rep : MismatchReport} (h : integrityMismatches d = .ok rep) :
    ∀ x ∈ rep.map Prod.fst, x ∈ d.map Prod.fst := by
  induction d generalizing rep with
  | nil =>
    cases h
    intro x hx
    cases hx
  | cons ci rest ih =>
    obtain ⟨c, items⟩ := ci
    obtain ⟨m, r, hm, hr, hrep⟩ := integrityMismatches_cons_ok h
    subst hrep
    by_cases hb : (catBad items m).isEmpty = true
    · rw [if_pos hb]
      intro x hx
      exact List.mem_cons_of_mem _ (ih hr x hx)
    · rw [if_neg hb]
      intro x hx
      rw [List.map_cons] at hx
      rcases List.mem_cons.mp hx with hx1 | hx1
      · simp [hx1]
      · exact List.mem_cons_of_mem _ (ih hr x hx1)

theorem integrityMismatches_nil_iff {d : List (String × Items)}
    {rep : MismatchReport} (h : integrityMismatches d = .ok rep) :
    (rep = [] ↔ ∀ ci ∈ d, ∀ a ∈ ci.2, ∀ b ∈ ci.2, a.2.length = b.2.length) := by
  induction d generalizing rep with
  | nil =>
    cases h
    simp
  | cons ci rest ih =>
    obtain ⟨c, items⟩ := ci
    obtain ⟨m, r, hm, hr, hrep⟩ := integrityMismatches_cons_ok h
    subst hrep
    by_cases hb : (catBad items m).isEmpty = true
    · rw [if_pos hb, ih hr]
      constructor
      · intro hall ci hci
        rcases List.mem_cons.mp hci with rfl | hci
        · exact fun a ha b hb2 => (catBad_empty_iff hm).mp hb a ha b hb2
        · exact hall ci hci
      · intro hall ci hci
        exact hall ci (List.mem_cons_of_mem _ hci)
    · rw [if_neg hb]
      constructor
      · intro he
        cases he
      · intro hall
        exact absurd ((catBad_empty_iff hm).mpr
          (hall (c, items) (List.mem_cons_self _ _))) hb

theorem integrityMismatches_name_iff {d : List (String × Items)}
    {rep : MismatchReport} (h : integrityMismatches d = .ok rep)
    (hnd : (d.map Prod.fst).Nodup) :
    ∀ ci ∈ d, (ci.1 ∈ rep.map Prod.fst
      ↔ ¬ ∀ a ∈ ci.2, ∀ b ∈ ci.2, a.2.length = b.2.length) := by
  induction d generalizing rep with
  | nil =>
    intro ci hci
    cases hci
  | cons ci0 rest ih =>
    obtain ⟨c, items⟩ := ci0
    have hnd1 : c ∉ List.map Prod.fst rest ∧ (List.map Prod.fst rest).Nodup := by
      rw [List.map_cons] at hnd
      exact List.nodup_cons.mp hnd
    have hc_notin : c ∉ rest.map Prod.fst := hnd1.1
    have hnd2 : (rest.map Prod.fst).Nodup := hnd1.2
    obtain ⟨m, r, hm, hr, hrep⟩ := integrityMismatches_cons_ok h
    subst hrep
    intro ci hci
    by_cases hb : (catBad items m).isEmpty = true
    · rw [if_pos hb]
      rcases List.mem_cons.mp hci with rfl | hci
      · constructor
        · intro hmem
          exact absurd (integrityMismatches_names hr _ hmem) hc_notin
        · intro hneq
          exact absurd ((catBad_empty_iff hm).mp hb) hneq
      · exact ih hr hnd2 ci hci
    · rw [if_neg hb]
      rcases List.mem_cons.mp hci with rfl | hci
      · constructor
        · intro _
          intro hall
          exact absurd ((catBad_empty_iff hm).mpr hall) hb
        · intro _
          simp
      · have hne : ci.1 ≠ c := by
          intro he
          exact hc_notin (he ▸ List.mem_map_of_mem Prod.fst hci)
        rw [List.map_cons]
        constructor
        · intro hmem
          rcases List.mem_cons.mp hmem with he | hmem2
          · exact absurd he hne
          · exact (ih hr hnd2 ci hci).mp hmem2
        · intro hneq
          exact List.mem_cons_of_mem _ ((ih hr hnd2 ci hci).mpr hneq)

theorem integrityMismatches_item_sound {d : List (String × Items)}
    {rep : MismatchReport} (h : integrityMismatches d = .ok rep) :
    ∀ cm ∈ rep, ∃ items, (cm.1, items) ∈ d ∧ cm.2 ≠ [] ∧
      ∀ im ∈ cm.2, ∃ vs, (im.1, vs) ∈ items ∧ vs.length = im.2 ∧
        ∃ w ∈ items, im.2 < w.2.length := by
  induction d generalizing rep with
  | nil =>
    cases h
    intro cm hcm
    cases hcm
  | cons ci0 rest ih =>
    obtain ⟨c, items⟩ := ci0
    obtain ⟨m, r, hm, hr, hrep⟩ := integrityMismatches_cons_ok h
    subst hrep
    by_cases hb : (catBad items m).isEmpty = true
    · rw [if_pos hb]
      intro cm hcm
      obtain ⟨its, h1, h2, h3⟩ := ih hr cm hcm
      exact ⟨its, List.mem_cons_of_mem _ h1, h2, h3⟩
    · rw [if_neg hb]
      intro cm hcm
      rcases List.mem_cons.mp hcm with rfl | hcm
      · refine ⟨items, List.mem_cons_self _ _, ?_, ?_⟩
        · intro he
          apply hb
          have he2 : catBad items m = [] := he
          rw [he2]
          rfl
        · intro im him
          have him2 : im ∈ catBad items m := him
          rw [catBad] at him2
          rcases List.mem_map.mp him2 with ⟨i, hif, rfl⟩
          have hi : i ∈ items := List.mem_of_mem_filter hif
          have hlen : i.2.length ≠ m := by
            have := List.of_mem_filter hif
            simpa using this
          obtain ⟨hmem, hle⟩ := pyMax_spec hm
          rcases List.mem_map.mp hmem with ⟨w, hw, hwlen⟩
          refine ⟨i.2, ?_, rfl, w, hw, ?_⟩
          · simpa using hi
          · rw [hwlen]
            exact Nat.lt_of_le_of_ne (hle i.2.length
              (List.mem_map_of_mem _ hi)) hlen
      · obtain ⟨its, h1, h2, h3⟩ := ih hr cm hcm
        exact ⟨its, List.mem_cons_of_mem _ h1, h2, h3⟩

/-- C5 counterexample: on a store with a genuine length mismatch, the call
computes and prints the mismatch triple `("cat", "y", 1)`, but its Python
*return value* (second component) is `None`, not the mismatch list - the
function has no `return` statement. -/
theorem integrity_check_returns_none_cex :
    integrity_check mismatchStorage
      = .ok ([("cat", [("y", 1)])], none, mismatchStorage)
    ∧ ([("cat", [("y", 1)])] : MismatchReport) ≠ [] := by
  exact ⟨rfl, by simp⟩

/-- C5 (amended): on every store whose categories are nonempty,
`integrity_check` *prints* (first component) exactly the
`(category, item, length)` mismatches - the printed report is empty iff
every category's items have equal lengths, a category is named in it iff
its items are not all of equal length, and each reported item really has
the reported length with some longer sibling - while the call *returns*
`None` (second component) and leaves the store unchanged (third
component). -/
theorem integrity_check_reports_and_preserves (s : InvestigationStorage)
    (hne : ∀ ci ∈ s.data, ci.2 ≠ [])
    (hnd : (s.data.map Prod.fst).Nodup) :
    ∃ rep, integrity_check s = .ok (rep, none, s)
      ∧ (rep = [] ↔ ∀ ci ∈ s.data, ∀ a ∈ ci.2, ∀ b ∈ ci.2,
          a.2.length = b.2.length)
      ∧ (∀ ci ∈ s.data, (ci.1 ∈ rep.map Prod.fst
          ↔ ¬ ∀ a ∈ ci.2, ∀ b ∈ ci.2, a.2.length = b.2.length))
      ∧ (∀ cm ∈ rep, ∃ items, (cm.1, items) ∈ s.data ∧ cm.2 ≠ [] ∧
          ∀ im ∈ cm.2, ∃ vs, (im.1, vs) ∈ items ∧ vs.length = im.2 ∧
            ∃ w ∈ items, im.2 < w.2.length) := by
  obtain ⟨rep, hrep⟩ := integrityMismatches_ok hne
  refine ⟨rep, ?_, integrityMismatches_nil_iff hrep,
    integrityMismatches_name_iff hrep hnd, integrityMismatches_item_sound hrep⟩
  unfold integrity_check
  rw [hrep]

/-- Witness for the C5 theorem at the concrete mismatch store. -/
theorem integrity_check_reports_and_preserves_witness :
    ∃ rep, integrity_check mismatchStorage = .ok (rep, none, mismatchStorage) := by
  obtain ⟨rep, h1, _⟩ := integrity_check_reports_and_preserves mismatchStorage
    (by decide) (by decide)
  exact ⟨rep, h1⟩

/-! ## `write_data_to_cif` lemmas -/

theorem alookup_eq_none {α : Type} {m : List (String × α)} {q : String}
    (h : q ∉ m.map Prod.fst) : alookup m q = none := by
  induction m with
  | nil => rfl
  | cons p rest ih =>
    obtain ⟨a, b⟩ := p
    rw [List.map_cons, List.mem_cons] at h
    push_neg at h
    rw [alookup_cons, if_neg (fun e => h.1 e.symm)]
    exact ih h.2

theorem popItem_none_iff (its : Items) (q : String) :
    popItem its q = none ↔ q ∉ its.map Prod.fst := by
  induction its with
  | nil => simp [popItem]
  | cons p rest ih =>
    obtain ⟨a, b⟩ := p
    by_cases h : a = q
    · subst h
      simp [popItem]
    · have h2 : ¬ q = a := fun e => h e.symm
      simp [popItem, h, h2, ih]

theorem popItem_split {its : Items} {q : String} {v : List String}
    {rest : Items} (h : popItem its q = some (v, rest)) :
    ∃ pre post, its = pre ++ (q, v) :: post ∧ q ∉ pre.map Prod.fst ∧
      rest = pre ++ post := by
  induction its generalizing rest with
  | nil => cases h
  | cons p tail ih =>
    obtain ⟨a, b⟩ := p
    by_cases ha : a = q
    · subst ha
      rw [popItem, if_pos rfl] at h
      cases h
      exact ⟨[], tail, rfl, by simp, rfl⟩
    · rw [popItem, if_neg ha] at h
      cases hp : popItem tail q with
      | none =>
        rw [hp] at h
        cases h
      | some pr =>
        obtain ⟨v2, rest2⟩ := pr
        rw [hp] at h
        have hv : v2 = v ∧ (a, b) :: rest2 = rest := by
          have := Option.some.inj h
          exact ⟨congrArg Prod.fst this, congrArg Prod.snd this⟩

        obtain ⟨rfl, rfl⟩ := hv
        obtain ⟨pre, post, h1, h2, h3⟩ := ih hp
        refine ⟨(a, b) :: pre, post, ?_, ?_, ?_⟩
        · rw [h1]
          rfl
        · rw [List.map_cons, List.mem_cons]
          push_neg
          exact ⟨fun e => ha e.symm, h2⟩
        · rw [h3]
          rfl

theorem popItem_alookup {its : Items} {q : String} {v : List String}
    {rest : Items} (h : popItem its q = some (v, rest)) :
    alookup its q = some v := by
  obtain ⟨pre, post, h1, h2, h3⟩ := popItem_split h
  subst h1
  rw [alookup_append_none _ (alookup_eq_none h2), alookup_cons, if_pos rfl]

theorem popItem_rest_nodup {its : Items} {q : String} {v : List String}
    {rest : Items} (h : popItem its q = some (v, rest))
    (hnd : (its.map Prod.fst).Nodup) :
    (rest.map Prod.fst).Nodup ∧ q ∉ rest.map Prod.fst := by
  obtain ⟨pre, post, h1, h2, h3⟩ := popItem_split h
  subst h1
  subst h3
  rw [List.map_append, List.map_cons] at hnd
  rw [List.map_append]
  rw [List.nodup_append] at hnd
  obtain ⟨hp, hqpost, hdisj⟩ := hnd
  obtain ⟨hqnot, hpost⟩ := List.nodup_cons.mp hqpost
  constructor
  · rw [List.nodup_append]
    refine ⟨hp, hpost, ?_⟩
    intro a ha hb
    exact hdisj ha (List.mem_cons_of_mem _ hb)
  · rw [List.mem_append]
    push_neg
    exact ⟨h2, hqnot⟩

theorem popItem_rest_alookup {its : Items} {q : String} {v : List String}
    {rest : Items} (h : popItem its q = some (v, rest)) {n : String}
    (hn : n ≠ q) : alookup rest n = alookup its n := by
  obtain ⟨pre, post, h1, h2, h3⟩ := popItem_split h
  subst h1
  subst h3
  cases hl : alookup pre n with
  | some w => rw [alookup_append_some _ hl, alookup_append_some _ hl]
  | none =>
    rw [alookup_append_none _ hl, alookup_append_none _ hl, alookup_cons,
      if_neg (fun e => hn e.symm)]

theorem popItem_rest_keys_sub {its : Items} {q : String} {v : List String}
    {rest : Items} (h : popItem its q = some (v, rest)) :
    ∀ n ∈ rest.map Prod.fst, n ∈ its.map Prod.fst := by
  obtain ⟨pre, post, h1, h2, h3⟩ := popItem_split h
  subst h1
  subst h3
  intro n hn
  rw [List.map_append] at hn
  rw [List.map_append, List.map_cons]
  rcases List.mem_append.mp hn with hn | hn
  · exact List.mem_append.mpr (Or.inl hn)
  · exact List.mem_append.mpr (Or.inr (List.mem_cons_of_mem _ hn))

theorem popItem_rest_keys_mem {its : Items} {q : String} {v : List String}
    {rest : Items} (h : popItem its q = some (v, rest)) {n : String}
    (hn : n ≠ q) (hm : n ∈ its.map Prod.fst) : n ∈ rest.map Prod.fst := by
  obtain ⟨pre, post, h1, h2, h3⟩ := popItem_split h
  subst h1
  subst h3
  rw [List.map_append, List.map_cons] at hm
  rw [List.map_append]
  rcases List.mem_append.mp hm with hm | hm
  · exact List.mem_append.mpr (Or.inl hm)
  · rcases List.mem_cons.mp hm with he | hm
    · exact absurd he hn
    · exact List.mem_append.mpr (Or.inr hm)

theorem popItem_filter {its : Items} {q : String} {v : List String}
    {rest : Items} (h : popItem its q = some (v, rest))
    (hnd : (its.map Prod.fst).Nodup) (os : List String) :
    its.filter (fun p => !((q :: os).contains p.1))
      = rest.filter (fun p => !(os.contains p.1)) := by
  obtain ⟨pre, post, h1, h2, h3⟩ := popItem_split h
  subst h1
  subst h3
  rw [List.map_append, List.map_cons, List.nodup_append] at hnd
  obtain ⟨hp, hqpost, hdisj⟩ := hnd
  obtain ⟨hqnot, hpost⟩ := List.nodup_cons.mp hqpost
  rw [List.filter_append, List.filter_append, List.filter_cons]
  have hcq : (!((q :: os).contains (q, v).1)) = false := by
    simp [List.contains_cons]
  rw [hcq]
  simp only [Bool.false_eq_true, if_false]
  have hpre : pre.filter (fun p => !((q :: os).contains p.1))
      = pre.filter (fun p => !(os.contains p.1)) := by
    apply List.filter_congr
    intro p hp2
    have hne : p.1 ≠ q := by
      intro he
      have hmem : p.1 ∈ pre.map Prod.fst := List.mem_map_of_mem Prod.fst hp2
      rw [he] at hmem
      exact h2 hmem
    simp [List.contains_cons, hne]
  have hpost2 : post.filter (fun p => !((q :: os).contains p.1))
      = post.filter (fun p => !(os.contains p.1)) := by
    apply List.filter_congr
    intro p hp2
    have hne : p.1 ≠ q := by
      intro he
      have hmem : p.1 ∈ post.map Prod.fst := List.mem_map_of_mem Prod.fst hp2
      rw [he] at hmem
      exact hqnot hmem
    simp [List.contains_cons, hne]
  rw [hpre, hpost2]

theorem buildOrderedCat_none (order : List String) :
    ∀ its : Items, ∀ n, n ∈ order → n ∉ its.map Prod.fst →
      buildOrderedCat order its = none := by
  induction order with
  | nil =>
    intro its n hn _
    cases hn
  | cons o os ih =>
    intro its n hn hnot
    rcases List.mem_cons.mp hn with rfl | hn2
    · rw [buildOrderedCat, (popItem_none_iff its n).mpr hnot]
      rfl
    · cases hp : popItem its o with
      | none =>
        rw [buildOrderedCat, hp]
        rfl
      | some r =>
        obtain ⟨v, rest⟩ := r
        have hnr : n ∉ rest.map Prod.fst :=
          fun hm => hnot (popItem_rest_keys_sub hp n hm)
        simp [buildOrderedCat, hp, ih rest n hn2 hnr]

theorem buildOrderedCat_eq (order : List String) :
    ∀ its : Items, order.Nodup → (its.map Prod.fst).Nodup →
      (∀ n ∈ order, n ∈ its.map Prod.fst) →
      buildOrderedCat order its
        = some (order.map (fun n => (n, (alookup its n).getD [])),
            its.filter (fun p => !(order.contains p.1))) := by
  induction order with
  | nil =>
    intro its _ _ _
    simp [buildOrderedCat]
  | cons o os ih =>
    intro its hnd hknd hpres
    have ho : o ∈ its.map Prod.fst := hpres o (List.mem_cons_self _ _)
    cases hp : popItem its o with
    | none => exact absurd ((popItem_none_iff its o).mp hp) (not_not_intro ho)
    | some r =>
      obtain ⟨v, rest⟩ := r
      have hvo : alookup its o = some v := popItem_alookup hp
      obtain ⟨hrnd, _⟩ := popItem_rest_nodup hp hknd
      obtain ⟨hond, hoos⟩ := List.nodup_cons.mp hnd
      have hpres2 : ∀ n ∈ os, n ∈ rest.map Prod.fst := by
        intro n hn
        have hne : n ≠ o := by
          intro e
          exact hond (e ▸ hn)
        exact popItem_rest_keys_mem hp hne (hpres n (List.mem_cons_of_mem _ hn))
      have hmap : os.map (fun n => (n, (alookup rest n).getD []))
          = os.map (fun n => (n, (alookup its n).getD [])) := by
        apply List.map_congr_left
        intro n hn
        have hne : n ≠ o := by
          intro e
          exact hond (e ▸ hn)
        rw [popItem_rest_alookup hp hne]
      have hfil := popItem_filter hp hknd os
      rw [buildOrderedCat, hp]
      show ((buildOrderedCat os rest).map
        (fun q => ((o, v) :: q.1, q.2))) = _
      rw [ih rest hoos hrnd hpres2]
      rw [List.map_cons, hvo, hfil, ← hmap]
      rfl

theorem buildOrderedCat_removes (order : List String) :
    ∀ its : Items, ∀ op rem, buildOrderedCat order its = some (op, rem) →
      (its.map Prod.fst).Nodup →
      (∀ n ∈ order, n ∉ rem.map Prod.fst) ∧
        (∀ n ∈ rem.map Prod.fst, n ∈ its.map Prod.fst) := by
  induction order with
  | nil =>
    intro its op rem h _
    rw [buildOrderedCat] at h
    have hr : its = rem := congrArg Prod.snd (Option.some.inj h)
    subst hr
    exact ⟨fun n hn => absurd hn (List.not_mem_nil n), fun n hn => hn⟩
  | cons o os ih =>
    intro its op rem h hknd
    cases hp : popItem its o with
    | none =>
      rw [buildOrderedCat, hp] at h
      cases h
    | some r =>
      obtain ⟨v, rest⟩ := r
      rw [buildOrderedCat, hp] at h
      replace h : Option.map (fun q => ((o, v) :: q.1, q.2))
          (buildOrderedCat os rest) = some (op, rem) := h
      cases hb : buildOrderedCat os rest with
      | none =>
        rw [hb] at h
        cases h
      | some q =>
        rw [hb] at h
        have hrem : q.2 = rem := congrArg Prod.snd (Option.some.inj h)
        obtain ⟨hrnd, honot⟩ := popItem_rest_nodup hp hknd
        obtain ⟨ih1, ih2⟩ := ih rest q.1 q.2 (by rw [hb]) hrnd
        rw [hrem] at ih1 ih2
        constructor
        · intro n hn
          rcases List.mem_cons.mp hn with rfl | hn2
          · exact fun hm => honot (ih2 n hm)
          · exact ih1 n hn2
        · exact fun n hn => popItem_rest_keys_sub hp n (ih2 n hn)

theorem writeCats_eq (ord : String → List String) :
    ∀ d : List (String × Items),
      (∀ ci ∈ d, (ci.2.map Prod.fst).Nodup) →
      (∀ ci ∈ d, (ord ci.1).Nodup) →
      (∀ ci ∈ d, ∀ n ∈ ord ci.1, n ∈ ci.2.map Prod.fst) →
      writeCats ord d = some (
        d.map (fun ci => (ci.1,
          (ord ci.1).map (fun n => (n, (alookup ci.2 n).getD []))
            ++ ci.2.filter (fun p => !((ord ci.1).contains p.1)))),
        d.map (fun ci => (ci.1,
          ci.2.filter (fun p => !((ord ci.1).contains p.1))))) := by
  intro d
  induction d with
  | nil =>
    intro _ _ _
    rfl
  | cons ci rest ih =>
    intro h1 h2 h3
    obtain ⟨c, items⟩ := ci
    have hb := buildOrderedCat_eq (ord c) items
      (h2 (c, items) (List.mem_cons_self _ _))
      (h1 (c, items) (List.mem_cons_self _ _))
      (h3 (c, items) (List.mem_cons_self _ _))
    have hr := ih (fun x hx => h1 x (List.mem_cons_of_mem _ hx))
      (fun x hx => h2 x (List.mem_cons_of_mem _ hx))
      (fun x hx => h3 x (List.mem_cons_of_mem _ hx))
    rw [writeCats, hb]
    show (writeCats ord rest).map _ = _
    rw [hr]
    rfl

theorem writeCats_none (ord : String → List String) :
    ∀ d : List (String × Items),
      (∃ ci ∈ d, ∃ n ∈ ord ci.1, n ∉ ci.2.map Prod.fst) →
      writeCats ord d = none := by
  intro d
  induction d with
  | nil =>
    intro h
    obtain ⟨ci, hci, _⟩ := h
    cases hci
  | cons ci0 rest ih =>
    intro h
    obtain ⟨c, items⟩ := ci0
    obtain ⟨ci, hci, n, hn, hnot⟩ := h
    rcases List.mem_cons.mp hci with rfl | hci2
    · rw [writeCats, buildOrderedCat_none (ord c) items n hn hnot]
      rfl
    · cases hbo : buildOrderedCat (ord c) items with
      | none =>
        rw [writeCats, hbo]
        rfl
      | some r =>
        rw [writeCats, hbo]
        show (writeCats ord rest).map _ = none
        rw [ih ⟨ci, hci2, n, hn, hnot⟩]
        rfl

theorem writeCats_removes (ord : String → List String) :
    ∀ d : List (String × Items), ∀ doc nd,
      writeCats ord d = some (doc, nd) →
      (∀ ci ∈ d, (ci.2.map Prod.fst).Nodup) →
      ∀ ci ∈ nd, ∀ n ∈ ord ci.1, n ∉ ci.2.map Prod.fst := by
  intro d
  induction d with
  | nil =>
    intro doc nd h _
    rw [writeCats] at h
    have hr : ([] : List (String × Items)) = nd :=
      congrArg Prod.snd (Option.some.inj h)
    subst hr
    intro ci hci
    cases hci
  | cons ci0 rest ih =>
    intro doc nd h hnd
    obtain ⟨c, items⟩ := ci0
    cases hbo : buildOrderedCat (ord c) items with
    | none =>
      rw [writeCats, hbo] at h
      cases h
    | some r =>
      rw [writeCats, hbo] at h
      replace h : Option.map
          (fun q => ((c, r.1 ++ r.2) :: q.1, (c, r.2) :: q.2))
          (writeCats ord rest) = some (doc, nd) := h
      cases hw : writeCats ord rest with
      | none =>
        rw [hw] at h
        cases h
      | some q =>
        rw [hw] at h
        have hnd2 : (c, r.2) :: q.2 = nd :=
          congrArg Prod.snd (Option.some.inj h)
        subst hnd2
        intro ci hci
        rcases List.mem_cons.mp hci with rfl | hci2
        · intro n hn
          exact (buildOrderedCat_removes (ord c) items r.1 r.2 (by rw [hbo])
            (hnd (c, items) (List.mem_cons_self _ _))).1 n hn
        · exact ih q.1 q.2 (by rw [hw])
            (fun x hx => hnd x (List.mem_cons_of_mem _ hx)) ci hci2

/-- C6: at serialization time each category emits the declared-order items
first, in exactly the declared order (with their stored values), and the
remaining items after them in first-insertion order; a category with no
declared order (`get_item_order` returns `[]`) emits all items in
first-insertion order.  Hypotheses: item names are duplicate-free (a
Python dict invariant) and every declared name is present with a
duplicate-free order list (otherwise serialization raises, see the
companion result on `write_data_to_cif`'s partiality). -/
theorem write_data_to_cif_order_policy (s : InvestigationStorage)
    (h1 : ∀ ci ∈ s.data, (ci.2.map Prod.fst).Nodup)
    (h2 : ∀ ci ∈ s.data, (get_item_order s ci.1).Nodup)
    (h3 : ∀ ci ∈ s.data, ∀ n ∈ get_item_order s ci.1, n ∈ ci.2.map Prod.fst) :
    write_data_to_cif s = .ok (
      s.data.map (fun ci => (ci.1,
        (get_item_order s ci.1).map (fun n => (n, (alookup ci.2 n).getD []))
          ++ ci.2.filter (fun p => !((get_item_order s ci.1).contains p.1)))),
      { s with data := s.data.map (fun ci => (ci.1,
          ci.2.filter (fun p => !((get_item_order s ci.1).contains p.1)))) }) := by
  unfold write_data_to_cif
  rw [writeCats_eq (get_item_order s) s.data h1 h2 h3]

/-- Witness for the C6 theorem at the concrete ordered store. -/
theorem write_data_to_cif_order_policy_witness :
    write_data_to_cif orderedStorage = .ok (
      orderedStorage.data.map (fun ci => (ci.1,
        (get_item_order orderedStorage ci.1).map
            (fun n => (n, (alookup ci.2 n).getD []))
          ++ ci.2.filter
            (fun p => !((get_item_order orderedStorage ci.1).contains p.1)))),
      { orderedStorage with data := orderedStorage.data.map (fun ci => (ci.1,
          ci.2.filter
            (fun p => !((get_item_order orderedStorage ci.1).contains p.1)))) }) :=
  write_data_to_cif_order_policy orderedStorage (by decide) (by decide) (by decide)

/-- C10: `write_data_to_cif` is destructive and partial.  On success every
declared-order name has been removed (popped) from that category's items
in the post-call store; and whenever some category's declared order names
an item absent from the category, the call raises `KeyError`
(`.error ()`) and no document is produced. -/
theorem write_data_to_cif_destructive_and_partial :
    (∀ s : InvestigationStorage, ∀ doc s2,
        (∀ ci ∈ s.data, (ci.2.map Prod.fst).Nodup) →
        write_data_to_cif s = .ok (doc, s2) →
        ∀ ci ∈ s2.data, ∀ n ∈ get_item_order s ci.1, n ∉ ci.2.map Prod.fst)
    ∧ (∀ s : InvestigationStorage,
        (∃ ci ∈ s.data, ∃ n ∈ get_item_order s ci.1, n ∉ ci.2.map Prod.fst) →
        write_data_to_cif s = .error ()) := by
  constructor
  · intro s doc s2 hnd hok
    unfold write_data_to_cif at hok
    cases hw : writeCats (get_item_order s) s.data with
    | none =>
      rw [hw] at hok
      cases hok
    | some r =>
      rw [hw] at hok
      have hs2 : ({ s with data := r.2 } : InvestigationStorage) = s2 :=
        congrArg Prod.snd (Except.ok.inj hok)
      subst hs2
      intro ci hci
      exact writeCats_removes (get_item_order s) s.data r.1 r.2
        (by rw [hw]) hnd ci hci
  · intro s hex
    unfold write_data_to_cif
    rw [writeCats_none (get_item_order s) s.data hex]

/-- Witness for the C10 theorem: the store whose declared order names a
missing item raises, and serializing the ordered store removes the
declared item `w` from the store's `catA`. -/
theorem write_data_to_cif_destructive_and_partial_witness :
    write_data_to_cif missingOrderStorage = .error ()
    ∧ "w" ∉ ((("catA", [("v", ["2"])]) : String × Items)).2.map Prod.fst := by
  constructor
  · exact write_data_to_cif_destructive_and_partial.2 missingOrderStorage (by decide)
  · exact write_data_to_cif_destructive_and_partial.1 orderedStorage
      [("catA", [("w", ["3"]), ("u", ["1"]), ("v", ["2"])]), ("catB", [("x", ["4"])])]
      { data := [("catA", [("v", ["2"])]), ("catB", [("x", ["4"])])],
        mmcif_order := [("catA", ["w", "u"])] }
      (by decide) rfl ("catA", [("v", ["2"])]) (by decide) "w" (by decide)

/-! ## Operation Engine lemmas -/

theorem runLoop_shift (perform : String → Descriptor → InvestigationStorage →
    InvestigationStorage × Bool) :
    ∀ (ops : List Descriptor) (s : InvestigationStorage)
      (log0 : List Descriptor),
      ops.foldl (fun acc d =>
          ((runStep perform acc.1 d).1,
           acc.2 ++ (runStep perform acc.1 d).2.toList)) (s, log0)
        = ((runLoop perform ops s).1, log0 ++ (runLoop perform ops s).2) := by
  intro ops
  induction ops with
  | nil =>
    intro s log0
    simp [runLoop]
  | cons d rest ih =>
    intro s log0
    rw [List.foldl_cons]
    rw [ih]
    have hr : runLoop perform (d :: rest) s
        = ((runLoop perform rest (runStep perform s d).1).1,
           ([] ++ (runStep perform s d).2.toList)
             ++ (runLoop perform rest (runStep perform s d).1).2) := by
      rw [runLoop, List.foldl_cons, ih]
    rw [hr]
    simp [List.append_assoc]

theorem runLoop_cons (perform : String → Descriptor → InvestigationStorage →
    InvestigationStorage × Bool) (d : Descriptor) (rest : List Descriptor)
    (s : InvestigationStorage) :
    runLoop perform (d :: rest) s
      = ((runLoop perform rest (runStep perform s d).1).1,
         (runStep perform s d).2.toList
           ++ (runLoop perform rest (runStep perform s d).1).2) := by
  rw [runLoop, List.foldl_cons, runLoop_shift]
  simp

theorem runLoop_append (perform : String → Descriptor → InvestigationStorage →
    InvestigationStorage × Bool) :
    ∀ (l1 l2 : List Descriptor) (s : InvestigationStorage),
      runLoop perform (l1 ++ l2) s
        = ((runLoop perform l2 (runLoop perform l1 s).1).1,
           (runLoop perform l1 s).2
             ++ (runLoop perform l2 (runLoop perform l1 s).1).2) := by
  intro l1
  induction l1 with
  | nil =>
    intro l2 s
    show runLoop perform l2 s
      = ((runLoop perform l2 s).1, [] ++ (runLoop perform l2 s).2)
    rw [List.nil_append]
  | cons d rest ih =>
    intro l2 s
    rw [List.cons_append, runLoop_cons, runLoop_cons, ih]
    simp [List.append_assoc]

/-- C1: when a descriptor's `perform_operation` raises inside `run`'s
`try`, the failure is caught, the full descriptor payload is appended to
the error log, the remaining descriptors are processed exactly as a fresh
loop from the post-failure store, and `write_data_to_cif` is still invoked
on the final store afterwards - a failing descriptor never aborts the
loop. -/
theorem run_catches_perform_failure_and_continues
    (perform : String → Descriptor → InvestigationStorage →
      InvestigationStorage × Bool)
    (pre post : List Descriptor) (d : Descriptor) (s : InvestigationStorage)
    (k : String)
    (hk : operation_factory (d.operation.getD "") = .ok k)
    (hraise : (perform k d (runLoop perform pre s).1).2 = true) :
    InvestigationEngine_run perform (pre ++ d :: post) s
      = ((runLoop perform pre s).2
          ++ d :: (runLoop perform post
              (perform k d (runLoop perform pre s).1).1).2,
         write_data_to_cif (runLoop perform post
           (perform k d (runLoop perform pre s).1).1).1) := by
  have hstep : runStep perform (runLoop perform pre s).1 d
      = ((perform k d (runLoop perform pre s).1).1, some d) := by
    unfold runStep
    rw [hk]
    show (if (perform k d (runLoop perform pre s).1).2 then _ else _) = _
    rw [if_pos hraise]
  unfold InvestigationEngine_run
  rw [runLoop_append, runLoop_cons, hstep]
  simp

/-- Witness for the C1 theorem: one always-raising descriptor of known
kind `noop`, starting from the empty store. -/
theorem run_catches_perform_failure_and_continues_witness :
    InvestigationEngine_run performRaise ([] ++ descNoop :: []) emptyStorage
      = ((runLoop performRaise [] emptyStorage).2
          ++ descNoop :: (runLoop performRaise []
              (performRaise "noop" descNoop
                (runLoop performRaise [] emptyStorage).1).1).2,
         write_data_to_cif (runLoop performRaise []
           (performRaise "noop" descNoop
             (runLoop performRaise [] emptyStorage).1).1).1) :=
  run_catches_perform_failure_and_continues performRaise [] [] descNoop
    emptyStorage "noop" rfl rfl

/-- C2 counterexample: a run over `[descBad, descNoop]`, where `descBad`
has the unknown kind `"bogus"`, does *not* abort: the bad descriptor is
caught and logged, the following `noop` descriptor is still resolved and
performed (the store records it), and the output document is written. -/
theorem unknown_kind_does_not_abort_cex :
    InvestigationEngine_run performRecord [descBad, descNoop] emptyStorage
      = ([descBad],
         .ok ([("ran", [("noop", ["1"])])],
           { data := [("ran", [("noop", ["1"])])], mmcif_order := [] })) := rfl

/-- C2 (amended): a descriptor whose kind string is not one of the fifteen
known kinds makes `operation_factory` raise
`ValueError("Invalid operation type: ...")`, but `run`'s per-descriptor
`try`/`except` catches it like any operation failure: the descriptor is
logged with its payload, the store is unchanged by the failing descriptor,
the remaining descriptors are processed, and the output document is still
written - the run does not abort. -/
theorem unknown_kind_caught_and_run_continues
    (perform : String → Descriptor → InvestigationStorage →
      InvestigationStorage × Bool)
    (pre post : List Descriptor) (d : Descriptor) (s : InvestigationStorage)
    (hk : d.operation.getD "" ∉ knownOperationTypes) :
    operation_factory (d.operation.getD "")
        = .error ("Invalid operation type: " ++ d.operation.getD "")
    ∧ InvestigationEngine_run perform (pre ++ d :: post) s
      = ((runLoop perform pre s).2
          ++ d :: (runLoop perform post (runLoop perform pre s).1).2,
         write_data_to_cif (runLoop perform post (runLoop perform pre s).1).1) := by
  have hf : operation_factory (d.operation.getD "")
      = .error ("Invalid operation type: " ++ d.operation.getD "") := by
    have hne1 : ¬ d.operation.getD "" = "distinct_union" :=
      fun e => hk (by rw [e]; decide)
    have hne2 : ¬ d.operation.getD "" = "intersection" :=
      fun e => hk (by rw [e]; decide)
    have hne3 : ¬ d.operation.getD "" = "auto_increment" :=
      fun e => hk (by rw [e]; decide)
    have hne4 : ¬ d.operation.getD "" = "static_value" :=
      fun e => hk (by rw [e]; decide)
    have hne5 : ¬ d.operation.getD "" = "modify_intersection" :=
      fun e => hk (by rw [e]; decide)
    have hne6 : ¬ d.operation.getD "" = "conditional_union" :=
      fun e => hk (by rw [e]; decide)
    have hne7 : ¬ d.operation.getD "" = "copy" :=
      fun e => hk (by rw [e]; decide)
    have hne8 : ¬ d.operation.getD "" = "copy_fill" :=
      fun e => hk (by rw [e]; decide)
    have hne9 : ¬ d.operation.getD "" = "copy_conditional_modify" :=
      fun e => hk (by rw [e]; decide)
    have hne10 : ¬ d.operation.getD "" = "copy_for_each_row" :=
      fun e => hk (by rw [e]; decide)
    have hne11 : ¬ d.operation.getD "" = "external_information" :=
      fun e => hk (by rw [e]; decide)
    have hne12 : ¬ d.operation.getD "" = "deletion" :=
      fun e => hk (by rw [e]; decide)
    have hne13 : ¬ d.operation.getD "" = "conditional_distinct_union" :=
      fun e => hk (by rw [e]; decide)
    have hne14 : ¬ d.operation.getD "" = "sql_query" :=
      fun e => hk (by rw [e]; decide)
    have hne15 : ¬ d.operation.getD "" = "noop" :=
      fun e => hk (by rw [e]; decide)
    rw [operation_factory, if_neg hne1, if_neg hne2, if_neg hne3, if_neg hne4, if_neg hne5, if_neg hne6, if_neg hne7, if_neg hne8, if_neg hne9, if_neg hne10, if_neg hne11, if_neg hne12, if_neg hne13, if_neg hne14, if_neg hne15]
  have hstep : runStep perform (runLoop perform pre s).1 d
      = ((runLoop perform pre s).1, some d) := by
    unfold runStep
    rw [hf]
  refine ⟨hf, ?_⟩
  unfold InvestigationEngine_run
  rw [runLoop_append, runLoop_cons, hstep]
  simp

/-- Witness for the C2 theorem: the unknown-kind descriptor `descBad`
followed by `descNoop`. -/
theorem unknown_kind_caught_and_run_continues_witness :
    operation_factory (descBad.operation.getD "")
        = .error ("Invalid operation type: " ++ descBad.operation.getD "")
    ∧ InvestigationEngine_run performRecord ([] ++ descBad :: [descNoop])
        emptyStorage
      = ((runLoop performRecord [] emptyStorage).2
          ++ descBad :: (runLoop performRecord [descNoop]
              (runLoop performRecord [] emptyStorage).1).2,
         write_data_to_cif (runLoop performRecord [descNoop]
           (runLoop performRecord [] emptyStorage).1).1) :=
  unknown_kind_caught_and_run_continues performRecord [] [descNoop] descBad
    emptyStorage (by decide)

/-! ## Ordinal-assignment lemmas (`build_denormalised_data`) -/

theorem assignOrdinal_self (os : List (String × Nat)) (n : Nat) (k : String) :
    alookup (assignOrdinal os n k).1 k = some (assignOrdinal os n k).2.2 := by
  cases h : alookup os k with
  | some v => simp [assignOrdinal, h]
  | none =>
    simp only [assignOrdinal, h]
    rw [alookup_append_none _ h, alookup_cons, if_pos rfl]

theorem assignOrdinal_mono {os : List (String × Nat)} {q : String} {v : Nat}
    (n : Nat) (k : String) (h : alookup os q = some v) :
    alookup (assignOrdinal os n k).1 q = some v := by
  cases hk : alookup os k with
  | some w => simpa [assignOrdinal, hk] using h
  | none =>
    simp only [assignOrdinal, hk]
    exact alookup_append_some _ h

theorem runCtx_cons (st : OrdState) (c : EntityCtx) (cs : List EntityCtx) :
    runCtx st (c :: cs)
      = ((runCtx (processCtx st c).1 cs).1,
         (processCtx st c).2 :: (runCtx (processCtx st c).1 cs).2) := rfl

theorem processCtx_mono {st : OrdState} {q : String} {v : Nat} (c : EntityCtx)
    (h : alookup st.ordinals q = some v) :
    alookup (processCtx st c).1.ordinals q = some v := by
  unfold processCtx processEntity
  by_cases h1 : c.2.2.type = "polymer"
  · simp only [if_pos h1]
    exact assignOrdinal_mono _ _ h
  · by_cases h2 : c.2.2.type = "water" ∨ c.2.2.type = "non-polymer"
    · simp only [if_neg h1, if_pos h2]
      exact assignOrdinal_mono _ _ h
    · simp only [if_neg h1, if_neg h2]
      exact h

theorem processCtx_key {st : OrdState} {c : EntityCtx} {k : String}
    (hk : ctxKey c = some k) :
    ∃ o, (processCtx st c).2.ordinal = some o ∧
      alookup (processCtx st c).1.ordinals k = some o := by
  unfold ctxKey at hk
  by_cases h1 : c.2.2.type = "polymer"
  · rw [if_pos h1] at hk
    have hk2 := Option.some.inj hk
    refine ⟨(assignOrdinal st.ordinals st.nextPoly k).2.2, ?_, ?_⟩
    · simp [processCtx, processEntity, if_pos h1, mkDenormRow, hk2]
    · simp only [processCtx, processEntity, if_pos h1, hk2]
      exact assignOrdinal_self _ _ _
  · rw [if_neg h1] at hk
    by_cases h2 : c.2.2.type = "water" ∨ c.2.2.type = "non-polymer"
    · rw [if_pos h2] at hk
      have hk2 := Option.some.inj hk
      refine ⟨(assignOrdinal st.ordinals st.nextNonpoly k).2.2, ?_, ?_⟩
      · simp [processCtx, processEntity, if_neg h1, if_pos h2, mkDenormRow, hk2]
      · simp only [processCtx, processEntity, if_neg h1, if_pos h2, hk2]
        exact assignOrdinal_self _ _ _
    · rw [if_neg h2] at hk
      cases hk

theorem runCtx_mono : ∀ (cs : List EntityCtx) (st : OrdState) (q : String)
    (v : Nat), alookup st.ordinals q = some v →
    alookup ((runCtx st cs).1).ordinals q = some v := by
  intro cs
  induction cs with
  | nil =>
    intro st q v h
    exact h
  | cons c rest ih =>
    intro st q v h
    rw [runCtx_cons]
    exact ih _ _ _ (processCtx_mono c h)

theorem runCtx_zip_key : ∀ (cs : List EntityCtx) (st : OrdState)
    (c : EntityCtx) (r : DenormRow) (k : String),
    (c, r) ∈ cs.zip (runCtx st cs).2 → ctxKey c = some k →
    ∃ o, r.ordinal = some o ∧
      alookup ((runCtx st cs).1).ordinals k = some o := by
  intro cs
  induction cs with
  | nil =>
    intro st c r k hm _
    cases hm
  | cons c0 rest ih =>
    intro st c r k hm hk
    rw [runCtx_cons] at hm ⊢
    rw [List.zip_cons_cons] at hm
    rcases List.mem_cons.mp hm with he | hm2
    · have hc : c = c0 := congrArg Prod.fst he
      have hr : r = (processCtx st c0).2 := congrArg Prod.snd he
      subst hc
      obtain ⟨o, ho, hs⟩ := @processCtx_key st _ _ hk
      rw [← hr] at ho
      exact ⟨o, ho, runCtx_mono _ _ _ _ hs⟩
    · exact ih _ _ _ _ hm2 hk

/-- C4 counterexample: two sources whose polymer sequences differ only in
a trailing newline (`"A"` vs `"A\n"`).  Their *trimmed* sequences agree -
both built rows carry `seq_one_letter_code = "A"` - yet the code assigns
ordinals 1 and 2, because the `ordinals` dict is keyed by the raw
(pre-trim) sequence string.  Under the claim the second occurrence of the
fingerprint would have reused ordinal 1. -/
theorem ordinal_trimmed_fingerprint_cex :
    (buildDenormalisedData [("f1.cif", cifRawA), ("f2.cif", cifRawB)]).map
        (fun r => (r.type, r.seq_one_letter_code, r.ordinal))
      = [("polymer", "A", some 1), ("polymer", "A", some 2)] := by decide

/-- C4 (amended): ordinals are keyed by the *raw* content fingerprint -
for polymers the sequence string exactly as read (before the
`.strip(";").rstrip('\n')` applied to the stored row), for
non-polymer/water the component id - in a single `ordinals` dict shared by
both kind classes; any two entity rows (in any sources, of either
ordinal-bearing kind) whose raw fingerprint strings are equal receive the
same ordinal.  Each row is paired here with its traversal context, whose
`ctxKey` is that raw fingerprint. -/
theorem ordinal_shared_raw_fingerprint (files : List (String × CifBlock))
    (c1 c2 : EntityCtx) (r1 r2 : DenormRow) (k : String)
    (h1 : (c1, r1) ∈ (flatCtx files).zip (buildDenormalisedData files))
    (h2 : (c2, r2) ∈ (flatCtx files).zip (buildDenormalisedData files))
    (hk1 : ctxKey c1 = some k) (hk2 : ctxKey c2 = some k) :
    r1.ordinal = r2.ordinal := by
  have hb : buildDenormalisedData files = (runCtx initOrdState (flatCtx files)).2 := rfl
  rw [hb] at h1 h2
  obtain ⟨o1, ho1, hs1⟩ := runCtx_zip_key _ _ _ _ _ h1 hk1
  obtain ⟨o2, ho2, hs2⟩ := runCtx_zip_key _ _ _ _ _ h2 hk2
  rw [ho1, ho2, Option.some.inj (hs1.symm.trans hs2)]

/-- Witness for the C4 theorem: the identical raw sequence `"AAA"` in two
different sources receives the same ordinal. -/
theorem ordinal_shared_raw_fingerprint_witness :
    ((dupCtx1, dupRow1) ∈ (flatCtx dupFiles).zip (buildDenormalisedData dupFiles))
    ∧ dupRow1.ordinal = dupRow3.ordinal :=
  ⟨by decide,
   ordinal_shared_raw_fingerprint dupFiles dupCtx1 dupCtx3 dupRow1 dupRow3
     "AAA" (by decide) (by decide) rfl rfl⟩

/-! ## PDBe builder lemmas -/

theorem processPdbeEntity_some_ids {fileName pdbId : String}
    {taxN taxM taxS : List (String × String × String)}
    {polyLk : List (String × String × String × String)}
    {nonpolyLk : List (String × String)} {st : PdbeOrdState}
    {e : PdbeEntityRaw} {st2 : PdbeOrdState} {r : PdbeRow}
    (h : processPdbeEntity fileName pdbId taxN taxM taxS polyLk nonpolyLk st e
      = (st2, some r)) :
    r.pdb_id ≠ "" ∧ r.entity_id ≠ "" := by
  simp only [processPdbeEntity] at h
  split_ifs at h with h1 h2 h3 h4
  · exact absurd (congrArg Prod.snd h) (by simp)
  · exact absurd (congrArg Prod.snd h) (by simp)
  · obtain rfl := Option.some.inj (congrArg Prod.snd h)
    exact ⟨h1, h2⟩
  · obtain rfl := Option.some.inj (congrArg Prod.snd h)
    exact ⟨h1, h2⟩
  · obtain rfl := Option.some.inj (congrArg Prod.snd h)
    exact ⟨h1, h2⟩

theorem runPdbeEntities_ids (fileName pdbId : String)
    (taxN taxM taxS : List (String × String × String))
    (polyLk : List (String × String × String × String))
    (nonpolyLk : List (String × String)) :
    ∀ (es : List PdbeEntityRaw) (st : PdbeOrdState),
      ∀ r ∈ (runPdbeEntities fileName pdbId taxN taxM taxS polyLk nonpolyLk
          st es).2, r.pdb_id ≠ "" ∧ r.entity_id ≠ "" := by
  intro es
  induction es with
  | nil =>
    intro st r hr
    cases hr
  | cons e rest ih =>
    intro st r hr
    rw [runPdbeEntities] at hr
    rcases List.mem_append.mp hr with hr1 | hr1
    · cases hp : processPdbeEntity fileName pdbId taxN taxM taxS polyLk
          nonpolyLk st e with
      | mk st2 res =>
        rw [hp] at hr1
        cases res with
        | none => cases hr1
        | some r2 =>
          have he : r = r2 := by
            simpa using hr1
          rw [he]
          exact processPdbeEntity_some_ids hp
    · exact ih _ r hr1

/-- C8: in the PDBe builder every entity with an empty source identifier
or an empty entity identifier is skipped (`continue`) and never inserted,
so every row of the denormalised table has a non-empty `pdb_id` and a
non-empty `entity_id`. -/
theorem pdbe_build_nonempty_identifiers :
    (∀ files : List (String × PdbeBlock),
        ∀ r ∈ pdbeBuildDenormalisedData files,
          r.pdb_id ≠ "" ∧ r.entity_id ≠ "")
    ∧ (∀ (fileName pdbId : String)
        (taxN taxM taxS : List (String × String × String))
        (polyLk : List (String × String × String × String))
        (nonpolyLk : List (String × String)) (st : PdbeOrdState)
        (e : PdbeEntityRaw),
        pdbId = "" ∨ safe_extract_field e.id = "" →
        (processPdbeEntity fileName pdbId taxN taxM taxS polyLk nonpolyLk
          st e).2 = none) := by
  constructor
  · intro files
    have haux : ∀ (fs : List (String × PdbeBlock)) (st : PdbeOrdState),
        ∀ r ∈ pdbeBuildGo st fs, r.pdb_id ≠ "" ∧ r.entity_id ≠ "" := by
      intro fs
      induction fs with
      | nil =>
        intro st r hr
        cases hr
      | cons fb rest ih =>
        intro st r hr
        rw [pdbeBuildGo] at hr
        rcases List.mem_append.mp hr with hr1 | hr1
        · exact runPdbeEntities_ids _ _ _ _ _ _ _ _ _ r hr1
        · exact ih _ r hr1
    exact haux files _
  · intro fileName pdbId taxN taxM taxS polyLk nonpolyLk st e hor
    rcases hor with h | h
    · simp [processPdbeEntity, h]
    · by_cases hp : pdbId = ""
      · simp [processPdbeEntity, hp]
      · simp [processPdbeEntity, hp, h]

/-- Witness for the C8 theorem: the surviving row of `pdbeBlockA` has
non-empty identifiers, and its empty-id sibling entity is dropped. -/
theorem pdbe_build_nonempty_identifiers_witness :
    (pdbeRowA.pdb_id ≠ "" ∧ pdbeRowA.entity_id ≠ "")
    ∧ (processPdbeEntity "a.cif" "1AAA" [] [] [] [] []
        { ordinals := [], nextPoly := 1, nextNonpoly := 1 }
        { id := some "", type := some "polymer", src_method := some "man",
          description := some "d" }).2 = none :=
  ⟨pdbe_build_nonempty_identifiers.1 [("a.cif", pdbeBlockA)] pdbeRowA (by decide),
   pdbe_build_nonempty_identifiers.2 "a.cif" "1AAA" [] [] [] [] []
     { ordinals := [], nextPoly := 1, nextNonpoly := 1 }
     { id := some "", type := some "polymer", src_method := some "man",
       description := some "d" } (Or.inr (by decide))⟩

/-! ## Sorting and grouping lemmas -/

theorem perm_insertLe {α : Type} (le : α → α → Bool) (a : α) (l : List α) :
    List.Perm (insertLe le a l) (a :: l) := by
  induction l with
  | nil => exact List.Perm.refl _
  | cons b bs ih =>
    rw [insertLe]
    by_cases h : le a b = true
    · rw [if_pos h]
    · rw [if_neg h]
      exact (List.Perm.cons b ih).trans (List.Perm.swap a b bs)

theorem perm_sortLe {α : Type} (le : α → α → Bool) (l : List α) :
    List.Perm (sortLe le l) l := by
  induction l with
  | nil => exact List.Perm.refl _
  | cons a as ih =>
    rw [sortLe]
    exact (perm_insertLe le a (sortLe le as)).trans (List.Perm.cons a ih)

theorem mem_sortLe {α : Type} (le : α → α → Bool) (l : List α) (x : α) :
    x ∈ sortLe le l ↔ x ∈ l :=
  (perm_sortLe le l).mem_iff

theorem mem_sortedDistinct {α : Type} [DecidableEq α] (le : α → α → Bool)
    (xs : List α) (x : α) : x ∈ sortedDistinct le xs ↔ x ∈ xs := by
  rw [sortedDistinct, mem_sortLe, List.mem_dedup]

theorem nodup_sortedDistinct {α : Type} [DecidableEq α] (le : α → α → Bool)
    (xs : List α) : (sortedDistinct le xs).Nodup :=
  ((perm_sortLe le xs.dedup).nodup_iff).mpr (List.nodup_dedup xs)

theorem sorted_insertLe_nat (a : Nat) (l : List Nat)
    (h : l.Sorted (· ≤ ·)) : (insertLe natLe a l).Sorted (· ≤ ·) := by
  induction l with
  | nil => simp [insertLe]
  | cons b bs ih =>
    rw [insertLe]
    by_cases hab : natLe a b = true
    · rw [if_pos hab]
      rw [List.sorted_cons]
      refine ⟨?_, h⟩
      intro x hx
      have hab2 : a ≤ b := by
        simpa [natLe] using hab
      rcases List.mem_cons.mp hx with rfl | hx
      · exact hab2
      · exact Nat.le_trans hab2 ((List.sorted_cons.mp h).1 x hx)
    · rw [if_neg hab]
      rw [List.sorted_cons] at h ⊢
      refine ⟨?_, ih h.2⟩
      intro x hx
      have hba : b ≤ a := by
        have := (by simpa [natLe] using hab : ¬ a ≤ b)
        omega
      rcases List.mem_cons.mp ((perm_insertLe natLe a bs).mem_iff.mp hx)
          with rfl | h2
      · exact hba
      · exact h.1 x h2

theorem sorted_sortLe_nat (l : List Nat) : (sortLe natLe l).Sorted (· ≤ ·) := by
  induction l with
  | nil => simp [sortLe]
  | cons a as ih => exact sorted_insertLe_nat a (sortLe natLe as) ih

theorem sortLe_nat_perm_eq {l1 l2 : List Nat} (h : List.Perm l1 l2) :
    sortLe natLe l1 = sortLe natLe l2 := by
  apply List.eq_of_perm_of_sorted
    ((perm_sortLe natLe l1).trans (h.trans (perm_sortLe natLe l2).symm))
    (sorted_sortLe_nat l1) (sorted_sortLe_nat l2)

theorem posOf_inj {α : Type} [DecidableEq α] {a b : α} {l : List α}
    (ha : a ∈ l) (hb : b ∈ l) (h : posOf a l = posOf b l) : a = b := by
  induction l with
  | nil => cases ha
  | cons x xs ih =>
    by_cases hxa : x = a
    · by_cases hxb : x = b
      · exact hxa.symm.trans hxb
      · rw [posOf, if_pos hxa, posOf, if_neg hxb] at h
        cases h
    · by_cases hxb : x = b
      · rw [posOf, if_neg hxa, posOf, if_pos hxb] at h
        cases h
      · rw [posOf, if_neg hxa, posOf, if_neg hxb] at h
        have ha2 : a ∈ xs := by
          rcases List.mem_cons.mp ha with rfl | h2
          · exact absurd rfl hxa
          · exact h2
        have hb2 : b ∈ xs := by
          rcases List.mem_cons.mp hb with rfl | h2
          · exact absurd rfl hxb
          · exact h2
        exact ih ha2 hb2 (Nat.succ.inj h)

theorem foldl_map_comm {β : Type} (g : β → DenormRow → DenormRow) :
    ∀ (l : List β) (rows : List DenormRow),
      l.foldl (fun acc b => acc.map (g b)) rows
        = rows.map (fun r => l.foldl (fun r0 b => g b r0) r) := by
  intro l
  induction l with
  | nil =>
    intro rows
    simp
  | cons b bs ih =>
    intro rows
    rw [List.foldl_cons, ih, List.map_map]
    rfl

theorem perRow_update_none (set : DenormRow → String × Nat → DenormRow) :
    ∀ (pairs : List (String × Nat)) (r : DenormRow),
      alookup pairs r.pdb_id = none →
      pairs.foldl (fun r0 pg => if r0.pdb_id = pg.1 then set r0 pg else r0) r
        = r := by
  intro pairs
  induction pairs with
  | nil =>
    intro r _
    rfl
  | cons pg rest ih =>
    intro r h
    obtain ⟨p, g⟩ := pg
    rw [alookup_cons] at h
    by_cases hp : p = r.pdb_id
    · rw [if_pos hp] at h
      cases h
    · rw [if_neg hp] at h
      rw [List.foldl_cons, if_neg (fun e => hp e.symm)]
      exact ih r h

theorem perRow_update_found (set : DenormRow → String × Nat → DenormRow)
    (hpdb : ∀ r pg, (set r pg).pdb_id = r.pdb_id) :
    ∀ (pairs : List (String × Nat)) (r : DenormRow) (g : Nat),
      (pairs.map Prod.fst).Nodup →
      alookup pairs r.pdb_id = some g →
      pairs.foldl (fun r0 pg => if r0.pdb_id = pg.1 then set r0 pg else r0) r
        = set r (r.pdb_id, g) := by
  intro pairs
  induction pairs with
  | nil =>
    intro r g _ h
    cases h
  | cons pg rest ih =>
    intro r g hnd h
    obtain ⟨p, g0⟩ := pg
    rw [alookup_cons] at h
    rw [List.map_cons] at hnd
    obtain ⟨hnot, hnd2⟩ := List.nodup_cons.mp hnd
    by_cases hp : p = r.pdb_id
    · rw [if_pos hp] at h
      obtain rfl := Option.some.inj h
      rw [List.foldl_cons, if_pos hp.symm, ← hp]
      refine perRow_update_none set rest (set r (p, g0)) ?_
      rw [hpdb, ← hp]
      exact alookup_eq_none hnot
    · rw [if_neg hp] at h
      rw [List.foldl_cons, if_neg (fun e => hp e.symm)]
      exact ih r g hnd2 h

theorem alookup_map_pair {α : Type} (h : String → α) :
    ∀ (l : List String) (q : String),
      alookup (l.map (fun p => (p, h p))) q
        = if q ∈ l then some (h q) else none := by
  intro l
  induction l with
  | nil =>
    intro q
    simp [alookup]
  | cons a rest ih =>
    intro q
    rw [List.map_cons, alookup_cons, ih]
    by_cases ha : a = q
    · subst ha
      simp
    · rw [if_neg ha]
      by_cases hm : q ∈ rest
      · rw [if_pos hm, if_pos (List.mem_cons_of_mem a hm)]
      · have hno : q ∉ a :: rest :=
          fun hc => (List.mem_cons.mp hc).elim (fun e => ha e.symm) hm
        rw [if_neg hm, if_neg hno]

theorem groupPairs_keys (part : DenormRow → Bool) (rows : List DenormRow) :
    (groupPairs part rows).map Prod.fst = partPdbs part rows := by
  rw [groupPairs, List.map_map]
  exact List.map_id _

theorem groupPairs_nodup (part : DenormRow → Bool) (rows : List DenormRow) :
    ((groupPairs part rows).map Prod.fst).Nodup := by
  rw [groupPairs_keys]
  exact nodup_sortedDistinct _ _

theorem alookup_groupPairs (part : DenormRow → Bool) (rows : List DenormRow)
    (p : String) :
    alookup (groupPairs part rows) p
      = if p ∈ partPdbs part rows then some (groupIdOf part rows p) else none := by
  rw [groupPairs, alookup_map_pair]

theorem mem_partPdbs (part : DenormRow → Bool) (rows : List DenormRow)
    (p : String) :
    p ∈ partPdbs part rows ↔ ∃ r ∈ rows, part r = true ∧ r.pdb_id = p := by
  rw [partPdbs, mem_sortedDistinct]
  constructor
  · intro h
    rcases List.mem_map.mp h with ⟨r, hr, rfl⟩
    exact ⟨r, List.mem_of_mem_filter hr, by simpa using List.of_mem_filter hr, rfl⟩
  · intro ⟨r, hr, hp, he⟩
    subst he
    exact List.mem_map_of_mem _ (List.mem_filter.mpr ⟨hr, hp⟩)

theorem rawPartOrdinals_nil_of_not_mem (part : DenormRow → Bool)
    (rows : List DenormRow) (p : String) (h : p ∉ partPdbs part rows) :
    rawPartOrdinals part rows p = [] := by
  rw [rawPartOrdinals]
  rw [List.filter_eq_nil_iff.mpr, List.filterMap_nil]
  intro r hr
  intro hcond
  apply h
  rw [mem_partPdbs]
  have hc := Bool.and_eq_true_iff.mp hcond
  exact ⟨r, hr, hc.1, by simpa using hc.2⟩

theorem rawPartOrdinals_ne_nil_of_mem (part : DenormRow → Bool)
    (rows : List DenormRow) (p : String)
    (hords : ∀ r ∈ rows, part r = true → r.ordinal ≠ none)
    (h : p ∈ partPdbs part rows) :
    rawPartOrdinals part rows p ≠ [] := by
  rcases (mem_partPdbs part rows p).mp h with ⟨r, hr, hp, he⟩
  have ho : r.ordinal ≠ none := hords r hr hp
  cases hov : r.ordinal with
  | none => exact absurd hov ho
  | some o =>
    intro hnil
    have hmem : o ∈ rawPartOrdinals part rows p := by
      rw [rawPartOrdinals]
      apply List.mem_filterMap.mpr
      refine ⟨r, ?_, hov⟩
      apply List.mem_filter.mpr
      exact ⟨hr, by simp [hp, he]⟩
    rw [hnil] at hmem
    cases hmem

/-- The polymer `UPDATE` loop changes only `poly_descript`. -/
theorem polyFold_fields (pairs : List (String × Nat)) :
    ∀ r : DenormRow,
      ((pairs.foldl (fun r0 pg => if r0.pdb_id = pg.1
          then { r0 with poly_descript := some pg.2 } else r0) r).pdb_id = r.pdb_id)
      ∧ ((pairs.foldl (fun r0 pg => if r0.pdb_id = pg.1
          then { r0 with poly_descript := some pg.2 } else r0) r).type = r.type)
      ∧ ((pairs.foldl (fun r0 pg => if r0.pdb_id = pg.1
          then { r0 with poly_descript := some pg.2 } else r0) r).ordinal = r.ordinal)
      ∧ ((pairs.foldl (fun r0 pg => if r0.pdb_id = pg.1
          then { r0 with poly_descript := some pg.2 } else r0) r).nonpoly_descript
          = r.nonpoly_descript)
      ∧ ((pairs.foldl (fun r0 pg => if r0.pdb_id = pg.1
          then { r0 with poly_descript := some pg.2 } else r0) r).sample_id
          = r.sample_id) := by
  induction pairs with
  | nil =>
    intro r
    exact ⟨rfl, rfl, rfl, rfl, rfl⟩
  | cons pg rest ih =>
    intro r
    rw [List.foldl_cons]
    by_cases hp : r.pdb_id = pg.1
    · rw [if_pos hp]
      exact ih _
    · rw [if_neg hp]
      exact ih r

/-- The non-polymer `UPDATE` loop changes only `nonpoly_descript`. -/
theorem nonpolyFold_fields (pairs : List (String × Nat)) :
    ∀ r : DenormRow,
      ((pairs.foldl (fun r0 pg => if r0.pdb_id = pg.1
          then { r0 with nonpoly_descript := some pg.2 } else r0) r).pdb_id = r.pdb_id)
      ∧ ((pairs.foldl (fun r0 pg => if r0.pdb_id = pg.1
          then { r0 with nonpoly_descript := some pg.2 } else r0) r).type = r.type)
      ∧ ((pairs.foldl (fun r0 pg => if r0.pdb_id = pg.1
          then { r0 with nonpoly_descript := some pg.2 } else r0) r).ordinal = r.ordinal)
      ∧ ((pairs.foldl (fun r0 pg => if r0.pdb_id = pg.1
          then { r0 with nonpoly_descript := some pg.2 } else r0) r).poly_descript
          = r.poly_descript)
      ∧ ((pairs.foldl (fun r0 pg => if r0.pdb_id = pg.1
          then { r0 with nonpoly_descript := some pg.2 } else r0) r).sample_id
          = r.sample_id) := by
  induction pairs with
  | nil =>
    intro r
    exact ⟨rfl, rfl, rfl, rfl, rfl⟩
  | cons pg rest ih =>
    intro r
    rw [List.foldl_cons]
    by_cases hp : r.pdb_id = pg.1
    · rw [if_pos hp]
      exact ih _
    · rw [if_neg hp]
      exact ih r

theorem filter_map_comm (F : DenormRow → DenormRow) (p : DenormRow → Bool)
    (hp : ∀ r, p (F r) = p r) :
    ∀ rows : List DenormRow, (rows.map F).filter p = (rows.filter p).map F := by
  intro rows
  induction rows with
  | nil => rfl
  | cons r rest ih =>
    rw [List.map_cons, List.filter_cons, List.filter_cons, hp]
    by_cases h : p r = true
    · rw [if_pos h, if_pos h, List.map_cons, ih]
    · simp only [h, Bool.false_eq_true, if_false]
      exact ih

/-- A per-row transform preserving `pdb_id`, `type` and `ordinal` leaves
the grouping, concatenation and group-id data unchanged. -/
theorem partData_invariant (F : DenormRow → DenormRow)
    (hpdb : ∀ r, (F r).pdb_id = r.pdb_id)
    (hordinal : ∀ r, (F r).ordinal = r.ordinal)
    (part : DenormRow → Bool) (hpart : ∀ r, part (F r) = part r)
    (rows : List DenormRow) :
    partPdbs part (rows.map F) = partPdbs part rows
    ∧ (∀ p, rawPartOrdinals part (rows.map F) p = rawPartOrdinals part rows p) := by
  constructor
  · rw [partPdbs, partPdbs, filter_map_comm F part hpart, List.map_map]
    congr 1
    apply List.map_congr_left
    intro r _
    exact hpdb r
  · intro p
    rw [rawPartOrdinals, rawPartOrdinals,
      filter_map_comm F (fun r => part r && decide (r.pdb_id = p)) ?hc]
    case hc =>
      intro r
      show (part (F r) && decide ((F r).pdb_id = p))
        = (part r && decide (r.pdb_id = p))
      rw [hpart, hpdb]
    rw [List.filterMap_map]
    apply List.filterMap_congr
    intro r _
    exact hordinal r

/-- Equal grouping inputs give equal group-id pair lists. -/
theorem groupData_congr (part : DenormRow → Bool) (rowsA rowsB : List DenormRow)
    (hP : partPdbs part rowsA = partPdbs part rowsB)
    (hR : ∀ p, rawPartOrdinals part rowsA p = rawPartOrdinals part rowsB p) :
    groupPairs part rowsA = groupPairs part rowsB := by
  have hco : ∀ p, concatOf part rowsA p = concatOf part rowsB p := by
    intro p
    rw [concatOf, concatOf, partOrdinals, partOrdinals, hR]
  have hu : uniqueConcats part rowsA = uniqueConcats part rowsB := by
    rw [uniqueConcats, uniqueConcats, hP]
    congr 1
    apply List.map_congr_left
    intro q _
    exact hco q
  rw [groupPairs, groupPairs, hP]
  apply List.map_congr_left
  intro p _
  rw [groupIdOf, groupIdOf, hco p, hu]

/-- Field-level characterisation of `add_descript_categories`: every
output row comes from an input row with the same `pdb_id` and
`sample_id`, whose `poly_descript`/`nonpoly_descript` are set to the
partition group id of its source when the source has partition rows and
are untouched otherwise. -/
theorem add_descript_fields (rows0 : List DenormRow) :
    ∀ r ∈ add_descript_categories rows0, ∃ r0 ∈ rows0,
      r.pdb_id = r0.pdb_id ∧ r.sample_id = r0.sample_id ∧
      r.poly_descript = (if r0.pdb_id ∈ partPdbs isPolyRow rows0
        then some (groupIdOf isPolyRow rows0 r0.pdb_id)
        else r0.poly_descript) ∧
      r.nonpoly_descript = (if r0.pdb_id ∈ partPdbs isNonpolyRow rows0
        then some (groupIdOf isNonpolyRow rows0 r0.pdb_id)
        else r0.nonpoly_descript) := by
  intro r hr
  rw [add_descript_categories] at hr
  rw [foldl_map_comm] at hr
  rw [foldl_map_comm] at hr
  rw [List.map_map] at hr
  rcases List.mem_map.mp hr with ⟨r0, hr0, rfl⟩
  simp only [Function.comp_apply]
  refine ⟨r0, hr0, ?_, ?_, ?_, ?_⟩
  all_goals
    have hF1pdb := (polyFold_fields (groupPairs isPolyRow rows0) r0).1
    have hF1type := (polyFold_fields (groupPairs isPolyRow rows0) r0).2.1
    have hF1ord := (polyFold_fields (groupPairs isPolyRow rows0) r0).2.2.1
    have hF1non := (polyFold_fields (groupPairs isPolyRow rows0) r0).2.2.2.1
    have hF1sam := (polyFold_fields (groupPairs isPolyRow rows0) r0).2.2.2.2
    have hinv := partData_invariant
      (fun r1 => (groupPairs isPolyRow rows0).foldl
        (fun r2 pg => if r2.pdb_id = pg.1
          then { r2 with poly_descript := some pg.2 } else r2) r1)
      (fun r1 => (polyFold_fields (groupPairs isPolyRow rows0) r1).1)
      (fun r1 => (polyFold_fields (groupPairs isPolyRow rows0) r1).2.2.1)
      isNonpolyRow
      (fun r1 => by
        unfold isNonpolyRow
        rw [(polyFold_fields (groupPairs isPolyRow rows0) r1).2.1])
      rows0
    have hgp : groupPairs isNonpolyRow
        (rows0.map (fun r1 => (groupPairs isPolyRow rows0).foldl
          (fun r2 pg => if r2.pdb_id = pg.1
            then { r2 with poly_descript := some pg.2 } else r2) r1))
        = groupPairs isNonpolyRow rows0 :=
      groupData_congr isNonpolyRow _ _ hinv.1 hinv.2
  · rw [(nonpolyFold_fields _ _).1, hF1pdb]
  · rw [(nonpolyFold_fields _ _).2.2.2.2, hF1sam]
  · rw [(nonpolyFold_fields _ _).2.2.2.1]
    by_cases hm : r0.pdb_id ∈ partPdbs isPolyRow rows0
    · rw [if_pos hm]
      have hl : alookup (groupPairs isPolyRow rows0) r0.pdb_id
          = some (groupIdOf isPolyRow rows0 r0.pdb_id) := by
        rw [alookup_groupPairs, if_pos hm]
      rw [perRow_update_found
        (fun r2 pg => { r2 with poly_descript := some pg.2 })
        (fun _ _ => rfl) _ _ _ (groupPairs_nodup isPolyRow rows0) hl]
    · rw [if_neg hm]
      have hl : alookup (groupPairs isPolyRow rows0) r0.pdb_id = none := by
        rw [alookup_groupPairs, if_neg hm]
      rw [perRow_update_none _ _ _ hl]
  · rw [hgp]
    by_cases hm : r0.pdb_id ∈ partPdbs isNonpolyRow rows0
    · rw [if_pos hm]
      have hl : alookup (groupPairs isNonpolyRow rows0)
          ((groupPairs isPolyRow rows0).foldl
            (fun r2 pg => if r2.pdb_id = pg.1
              then { r2 with poly_descript := some pg.2 } else r2) r0).pdb_id
          = some (groupIdOf isNonpolyRow rows0 r0.pdb_id) := by
        rw [hF1pdb, alookup_groupPairs, if_pos hm]
      rw [perRow_update_found
        (fun r2 pg => { r2 with nonpoly_descript := some pg.2 })
        (fun _ _ => rfl) _ _ _ (groupPairs_nodup isNonpolyRow rows0) hl]
    · rw [if_neg hm]
      have hl : alookup (groupPairs isNonpolyRow rows0)
          ((groupPairs isPolyRow rows0).foldl
            (fun r2 pg => if r2.pdb_id = pg.1
              then { r2 with poly_descript := some pg.2 } else r2) r0).pdb_id
          = none := by
        rw [hF1pdb, alookup_groupPairs, if_neg hm]
      rw [perRow_update_none _ _ _ hl, hF1non]

/-- The sample `UPDATE` loop changes only `sample_id`. -/
theorem sampleFold_pres (l : List (Nat × (Option Nat × Option Nat))) :
    ∀ r : DenormRow,
      ((l.foldl (fun r0 ip => if sampleMatches ip.2.1 ip.2.2 r0
          then { r0 with sample_id := some (ip.1 + 1) } else r0) r).poly_descript
        = r.poly_descript)
      ∧ ((l.foldl (fun r0 ip => if sampleMatches ip.2.1 ip.2.2 r0
          then { r0 with sample_id := some (ip.1 + 1) } else r0) r).nonpoly_descript
        = r.nonpoly_descript) := by
  induction l with
  | nil =>
    intro r
    exact ⟨rfl, rfl⟩
  | cons ip rest ih =>
    intro r
    rw [List.foldl_cons]
    by_cases hs : sampleMatches ip.2.1 ip.2.2 r = true
    · rw [if_pos hs]
      exact ih _
    · rw [if_neg hs]
      exact ih r

theorem sampleMatches_congr {a b : DenormRow} (pd nd : Option Nat)
    (h1 : a.poly_descript = b.poly_descript)
    (h2 : a.nonpoly_descript = b.nonpoly_descript) :
    sampleMatches pd nd a = sampleMatches pd nd b := by
  cases pd <;> cases nd <;> simp [sampleMatches, h1, h2]

theorem sampleFold_congr (l : List (Nat × (Option Nat × Option Nat))) :
    ∀ a b : DenormRow,
      a.poly_descript = b.poly_descript →
      a.nonpoly_descript = b.nonpoly_descript →
      a.sample_id = b.sample_id →
      (l.foldl (fun r0 ip => if sampleMatches ip.2.1 ip.2.2 r0
          then { r0 with sample_id := some (ip.1 + 1) } else r0) a).sample_id
        = (l.foldl (fun r0 ip => if sampleMatches ip.2.1 ip.2.2 r0
            then { r0 with sample_id := some (ip.1 + 1) } else r0) b).sample_id := by
  induction l with
  | nil =>
    intro a b _ _ h3
    exact h3
  | cons ip rest ih =>
    intro a b h1 h2 h3
    rw [List.foldl_cons, List.foldl_cons]
    have hm := @sampleMatches_congr a b ip.2.1 ip.2.2 h1 h2
    by_cases hs : sampleMatches ip.2.1 ip.2.2 a = true
    · rw [if_pos hs, if_pos (hm.symm.trans hs)]
      exact ih _ _ h1 h2 rfl
    · rw [if_neg hs, if_neg (fun hb => hs (hm.trans hb))]
      exact ih a b h1 h2 h3

/-- Field-level characterisation of `add_sample_category`. -/
theorem add_sample_fields (rows : List DenormRow) :
    ∀ r ∈ add_sample_category rows, ∃ a ∈ rows,
      r.poly_descript = a.poly_descript ∧
      r.nonpoly_descript = a.nonpoly_descript ∧
      r.sample_id = ((uniqueSamplePairs rows).enum.foldl
        (fun r0 ip => if sampleMatches ip.2.1 ip.2.2 r0
          then { r0 with sample_id := some (ip.1 + 1) } else r0) a).sample_id := by
  intro r hr
  rw [add_sample_category, foldl_map_comm] at hr
  rcases List.mem_map.mp hr with ⟨a, ha, rfl⟩
  exact ⟨a, ha, (sampleFold_pres _ a).1, (sampleFold_pres _ a).2, rfl⟩

/-- C7 counterexample: source `1AAA` has polymer ordinal multiset `[1, 1]`
(two entities with the same sequence) and source `2BBB` has `[1]`.  Their
*sets* of ordinals agree (`{1}`), yet the grouping - which keys on the
`GROUP_CONCAT` string of the full multiset ("1,1" vs "1") - assigns them
different description-group ids; moreover the ids are handed out in
ascending order of the concatenation string ("1" before "1,1"), so the
first-seen source `1AAA` receives id 2, not id 1. -/
theorem descript_group_multiset_cex :
    (add_descript_categories (buildDenormalisedData dupFiles)).map
        (fun r => (r.pdb_id, r.ordinal, r.poly_descript))
      = [("1AAA", some 1, some 2), ("1AAA", some 1, some 2),
         ("2BBB", some 1, some 1)] := by decide

/-- C7 (amended): two sources whose rows carry the same ordinal *multiset*
within a partition (the same sorted-with-multiplicity ordinal list, which
is what the `GROUP_CONCAT` of the ordinal-sorted subquery encodes) get the
same group id; group ids are at least 1; a group id is never reused across
different concatenation strings; and any two rows agreeing on the
(polymer-group, non-polymer-group) pair get the same sample id - rows
whose pair contains SQL `NULL` keep a `NULL` sample id, which is also
shared.  Ids are handed out in ascending order of the concatenation
string, not first-seen order.  The hypotheses state that the table is
fresh (group/sample columns still `NULL`, as `build_denormalised_data`
leaves them) and that partition rows carry integer ordinals. -/
theorem descript_group_and_sample_invariants (rows0 : List DenormRow)
    (hfresh : ∀ r ∈ rows0, r.poly_descript = none ∧ r.nonpoly_descript = none
      ∧ r.sample_id = none)
    (hords : ∀ r ∈ rows0, (isPolyRow r || isNonpolyRow r) = true →
      r.ordinal ≠ none) :
    (∀ r1 ∈ add_descript_categories rows0, ∀ r2 ∈ add_descript_categories rows0,
        List.Perm (rawPartOrdinals isPolyRow rows0 r1.pdb_id)
          (rawPartOrdinals isPolyRow rows0 r2.pdb_id) →
        r1.poly_descript = r2.poly_descript)
    ∧ (∀ r1 ∈ add_descript_categories rows0,
        ∀ r2 ∈ add_descript_categories rows0,
        List.Perm (rawPartOrdinals isNonpolyRow rows0 r1.pdb_id)
          (rawPartOrdinals isNonpolyRow rows0 r2.pdb_id) →
        r1.nonpoly_descript = r2.nonpoly_descript)
    ∧ (∀ r ∈ add_descript_categories rows0, ∀ g,
        r.poly_descript = some g ∨ r.nonpoly_descript = some g → 1 ≤ g)
    ∧ (∀ r1 ∈ add_descript_categories rows0,
        ∀ r2 ∈ add_descript_categories rows0, ∀ g,
        r1.poly_descript = some g → r2.poly_descript = some g →
        concatOf isPolyRow rows0 r1.pdb_id = concatOf isPolyRow rows0 r2.pdb_id)
    ∧ (∀ r1 ∈ add_sample_category (add_descript_categories rows0),
        ∀ r2 ∈ add_sample_category (add_descript_categories rows0),
        r1.poly_descript = r2.poly_descript →
        r1.nonpoly_descript = r2.nonpoly_descript →
        r1.sample_id = r2.sample_id) := by
  have hordp : ∀ r ∈ rows0, isPolyRow r = true → r.ordinal ≠ none :=
    fun r hr hp => hords r hr (by rw [hp]; rfl)
  have hordn : ∀ r ∈ rows0, isNonpolyRow r = true → r.ordinal ≠ none :=
    fun r hr hp => hords r hr (by rw [hp, Bool.or_true])
  have keyEq : ∀ part : DenormRow → Bool,
      (∀ r ∈ rows0, part r = true → r.ordinal ≠ none) →
      ∀ p1 p2 : String,
      List.Perm (rawPartOrdinals part rows0 p1) (rawPartOrdinals part rows0 p2) →
      (if p1 ∈ partPdbs part rows0
        then some (groupIdOf part rows0 p1) else (none : Option Nat))
        = (if p2 ∈ partPdbs part rows0
          then some (groupIdOf part rows0 p2) else none) := by
    intro part hop p1 p2 hperm
    by_cases h1 : p1 ∈ partPdbs part rows0
    · by_cases h2 : p2 ∈ partPdbs part rows0
      · rw [if_pos h1, if_pos h2]
        have hco : concatOf part rows0 p1 = concatOf part rows0 p2 := by
          rw [concatOf, concatOf, partOrdinals, partOrdinals,
            sortLe_nat_perm_eq hperm]
        rw [groupIdOf, groupIdOf, hco]
      · exfalso
        apply rawPartOrdinals_ne_nil_of_mem part rows0 p1 hop h1
        rw [rawPartOrdinals_nil_of_not_mem part rows0 p2 h2] at hperm
        exact hperm.eq_nil
    · by_cases h2 : p2 ∈ partPdbs part rows0
      · exfalso
        apply rawPartOrdinals_ne_nil_of_mem part rows0 p2 hop h2
        rw [rawPartOrdinals_nil_of_not_mem part rows0 p1 h1] at hperm
        exact hperm.symm.eq_nil
      · rw [if_neg h1, if_neg h2]
  refine ⟨?_, ?_, ?_, ?_, ?_⟩
  · intro r1 hr1 r2 hr2 hperm
    obtain ⟨a1, ha1, hpd1, _, hpoly1, _⟩ := add_descript_fields rows0 r1 hr1
    obtain ⟨a2, ha2, hpd2, _, hpoly2, _⟩ := add_descript_fields rows0 r2 hr2
    rw [hpd1, hpd2] at hperm
    rw [hpoly1, (hfresh a1 ha1).1, hpoly2, (hfresh a2 ha2).1]
    exact keyEq isPolyRow hordp a1.pdb_id a2.pdb_id hperm
  · intro r1 hr1 r2 hr2 hperm
    obtain ⟨a1, ha1, hpd1, _, _, hnon1⟩ := add_descript_fields rows0 r1 hr1
    obtain ⟨a2, ha2, hpd2, _, _, hnon2⟩ := add_descript_fields rows0 r2 hr2
    rw [hpd1, hpd2] at hperm
    rw [hnon1, (hfresh a1 ha1).2.1, hnon2, (hfresh a2 ha2).2.1]
    exact keyEq isNonpolyRow hordn a1.pdb_id a2.pdb_id hperm
  · intro r hr g hder
    obtain ⟨a, ha, _, _, hpoly, hnon⟩ := add_descript_fields rows0 r hr
    rcases hder with h | h
    · rw [hpoly] at h
      by_cases hm : a.pdb_id ∈ partPdbs isPolyRow rows0
      · rw [if_pos hm] at h
        have hg : g = groupIdOf isPolyRow rows0 a.pdb_id :=
          (Option.some.inj h).symm
        rw [hg, groupIdOf]
        omega
      · rw [if_neg hm, (hfresh a ha).1] at h
        cases h
    · rw [hnon] at h
      by_cases hm : a.pdb_id ∈ partPdbs isNonpolyRow rows0
      · rw [if_pos hm] at h
        have hg : g = groupIdOf isNonpolyRow rows0 a.pdb_id :=
          (Option.some.inj h).symm
        rw [hg, groupIdOf]
        omega
      · rw [if_neg hm, (hfresh a ha).2.1] at h
        cases h
  · intro r1 hr1 r2 hr2 g hg1 hg2
    obtain ⟨a1, ha1, hpd1, _, hpoly1, _⟩ := add_descript_fields rows0 r1 hr1
    obtain ⟨a2, ha2, hpd2, _, hpoly2, _⟩ := add_descript_fields rows0 r2 hr2
    rw [hpoly1] at hg1
    rw [hpoly2] at hg2
    by_cases hm1 : a1.pdb_id ∈ partPdbs isPolyRow rows0
    · by_cases hm2 : a2.pdb_id ∈ partPdbs isPolyRow rows0
      · rw [if_pos hm1] at hg1
        rw [if_pos hm2] at hg2
        have hgid : groupIdOf isPolyRow rows0 a1.pdb_id
            = groupIdOf isPolyRow rows0 a2.pdb_id :=
          (Option.some.inj hg1).trans (Option.some.inj hg2).symm
        rw [groupIdOf, groupIdOf] at hgid
        have hpos := Nat.succ.inj hgid
        have hc1 : concatOf isPolyRow rows0 a1.pdb_id
            ∈ uniqueConcats isPolyRow rows0 := by
          rw [uniqueConcats, mem_sortedDistinct]
          exact List.mem_map_of_mem _ hm1
        have hc2 : concatOf isPolyRow rows0 a2.pdb_id
            ∈ uniqueConcats isPolyRow rows0 := by
          rw [uniqueConcats, mem_sortedDistinct]
          exact List.mem_map_of_mem _ hm2
        rw [hpd1, hpd2]
        exact posOf_inj hc1 hc2 hpos
      · rw [if_neg hm2, (hfresh a2 ha2).1] at hg2
        cases hg2
    · rw [if_neg hm1, (hfresh a1 ha1).1] at hg1
      cases hg1
  · intro r1 hr1 r2 hr2 hp hn
    obtain ⟨a1, ha1, hp1, hn1, hs1⟩ :=
      add_sample_fields (add_descript_categories rows0) r1 hr1
    obtain ⟨a2, ha2, hp2, hn2, hs2⟩ :=
      add_sample_fields (add_descript_categories rows0) r2 hr2
    rw [hs1, hs2]
    apply sampleFold_congr
    · rw [← hp1, ← hp2]
      exact hp
    · rw [← hn1, ← hn2]
      exact hn
    · obtain ⟨a01, ha01, _, hsam1, _, _⟩ := add_descript_fields rows0 a1 ha1
      obtain ⟨a02, ha02, _, hsam2, _, _⟩ := add_descript_fields rows0 a2 ha2
      rw [hsam1, hsam2, (hfresh a01 ha01).2.2, (hfresh a02 ha02).2.2]

/-- Witness: on the duplicate-sequence table the two `1AAA` rows carry
permutation-equal (indeed equal) polymer ordinal lists, so the theorem
forces their polymer group ids to agree. -/
theorem descript_group_and_sample_invariants_witness :
    dupGRow1 ∈ add_descript_categories (buildDenormalisedData dupFiles)
    ∧ dupGRow2 ∈ add_descript_categories (buildDenormalisedData dupFiles)
    ∧ (∀ r ∈ buildDenormalisedData dupFiles,
        r.poly_descript = none ∧ r.nonpoly_descript = none ∧ r.sample_id = none)
    ∧ (∀ r ∈ buildDenormalisedData dupFiles,
        (isPolyRow r || isNonpolyRow r) = true → r.ordinal ≠ none)
    ∧ dupGRow1.poly_descript = dupGRow2.poly_descript := by
  refine ⟨by decide, by decide, by decide, by decide, ?_⟩
  exact (descript_group_and_sample_invariants (buildDenormalisedData dupFiles)
      (by decide) (by decide)).1
    dupGRow1 (by decide) dupGRow2 (by decide) (List.Perm.refl _)

/-- C9: the identity-assigning pipeline is deterministic - two runs over
identical inputs (the same file list, hence the same iteration order)
assign identical ordinal ids, description-group ids, sample ids and
campaign ids to every row.  The pipeline is a pure function of the input
list: ordinal allocation, group numbering, sample numbering and campaign
numbering read only the input and the state threaded through them (Python
dicts iterate in insertion order and the SQLite result orders are fixed by
the queries, so the embedding carries no hidden nondeterminism). -/
theorem pipeline_identity_determinism (files1 files2 : List (String × CifBlock))
    (h : files1 = files2) :
    (pipelineIds files1).map (fun r =>
        (r.ordinal, r.poly_descript, r.nonpoly_descript, r.sample_id,
         r.campaign_id))
      = (pipelineIds files2).map (fun r =>
        (r.ordinal, r.poly_descript, r.nonpoly_descript, r.sample_id,
         r.campaign_id)) := by
  subst h
  rfl

/-- Witness: two runs over the duplicate-sequence inputs agree on every
assigned id. -/
theorem pipeline_identity_determinism_witness :
    dupFiles = dupFiles
    ∧ (pipelineIds dupFiles).map (fun r =>
        (r.ordinal, r.poly_descript, r.nonpoly_descript, r.sample_id,
         r.campaign_id))
      = (pipelineIds dupFiles).map (fun r =>
        (r.ordinal, r.poly_descript, r.nonpoly_descript, r.sample_id,
         r.campaign_id)) :=
  ⟨rfl, pipeline_identity_determinism dupFiles dupFiles rfl⟩

end MmcifGen
